import Mathlib

/-!
# svaba refilter: `src/svaba/refilter.cpp`

A shallow embedding of `parseBreakOptions` and `runRefilterBreakpoints`.

Conventions of the embedding.

* `std::string` is `String`; `std::string::operator<` (the key order of `std::map`) is the
  lexicographic order of the character lists, `a.data < b.data`.
* `std::map<std::string, SampleInfo>` is an association list kept in strictly ascending key
  order; iterating the map is walking the list.
* `exit`, a failed `assert` and an uncaught exception end the run: fallible code returns
  `Except Fatal _`.  Assertions are taken as compiled in.
* `getopt_long` belongs to the C library.  The option loop is run on the sequence of values
  it returns before `-1`, each with the `optarg` it leaves (`none` for `NULL`); `char` is
  taken as signed, as on x86.
* Writing to `std::cerr` is not part of the model; `line_count` only feeds such a message.
* The classes and helpers declared in headers that are not part of this file
  (`BreakPoint`, `SampleInfo`, `DBSnpFilter`, `VCFFile`, `svabaUtils`, `SeqLib`) are
  collected in the structure `Env` and stay parameters of every definition.
* The effects on files are recorded as a list of `Event`s.
-/

namespace Refilter

/-! ## Data model -/

/-- The ways a run ends early. -/
inductive Fatal where
  /-- A call of `exit(code)`. -/
  | exit (code : Nat)
  /-- A failed `assert`. -/
  | assertion
  /-- An uncaught `std::out_of_range`, thrown by `std::string::at`. -/
  | out_of_range
  /-- The constructor `BreakPoint(line, hdr)` did not return an object. -/
  | constructor
  deriving DecidableEq, Repr

/-- A `double`.  No floating-point arithmetic happens in this file: a value is either the
integer literal it was initialised from, or what `arg >> x` left in a variable. -/
inductive Dbl where
  /-- The `double` initialised from the integer literal `n`. -/
  | lit (n : Int)
  /-- The value left by `std::istringstream(arg) >> x` in a variable that held `old`. -/
  | extracted (arg : String) (old : Dbl)
  deriving DecidableEq, Repr

/-- The class `SampleInfo`: the member `disc`, which the discordant loop reads, and the
other members, which this file only copies.  The member declarations are in `BreakPoint.h`;
`disc` is taken as a mathematical integer. -/
structure SampleInfo (P : Type) where
  disc : Int
  rest : P
  deriving DecidableEq, Repr

/-- A `std::map<std::string, SampleInfo>`, as the list of its entries in iteration order. -/
abbrev AlleleMap (P : Type) := List (String × SampleInfo P)

/-- The two counters of the member `dc` that this file updates. -/
structure DiscordantCluster where
  tcount : Int
  ncount : Int
  deriving DecidableEq, Repr

/-- The class `BreakPoint`: the members `allele` and `dc`, and all other members. -/
structure BreakPoint (P R : Type) where
  allele : AlleleMap P
  dc : DiscordantCluster
  rest : R
  deriving DecidableEq, Repr

/-- The variables of `namespace opt`. -/
structure Opt where
  input_file : String
  output_file : String
  pon : String
  analysis_id : String
  read_tracking : Bool
  indel_mask : String
  normal_bam : String
  tumor_bam : String
  bam : String
  dbsnp : String
  verbose : Int
  lod : Dbl
  lod_db : Dbl
  lod_somatic : Dbl
  lod_somatic_db : Dbl
  scale_error : Dbl
  pass_only : Bool
  deriving DecidableEq, Repr

/-- The initial values of the variables of `namespace opt`. -/
def opt_init : Opt where
  input_file := ""
  output_file := ""
  pon := ""
  analysis_id := "refilter"
  read_tracking := false
  indel_mask := ""
  normal_bam := ""
  tumor_bam := ""
  bam := ""
  dbsnp := ""
  verbose := 1
  lod := Dbl.lit 8
  lod_db := Dbl.lit 6
  lod_somatic := Dbl.lit 6
  lod_somatic_db := Dbl.lit 10
  scale_error := Dbl.lit 1
  pass_only := false

/-- What the run does to files, in program order. -/
inductive Event where
  /-- The call `SeqLib::read_access_test(path)`. -/
  | read_access_test (path : String)
  /-- The call `bwalker.Open(path)`. -/
  | bamOpen (path : String)
  /-- The call `new DBSnpFilter(path, bwalker.Header())`. -/
  | newDBSnpFilter (path : String)
  /-- The call `svabaUtils::fopen(path, os_allbps_r)`. -/
  | fopen (path : String)
  /-- The construction `igzstream infile(path)`. -/
  | igzstream (path : String)
  /-- The header line, read by the first `std::getline`. -/
  | readHeader (line : String)
  /-- A data row, read by `std::getline` in the loop condition. -/
  | readRow (line : String)
  /-- The statement `os_allbps_r << s << std::endl`. -/
  | write (s : String)
  /-- The call `os_allbps_r.close()`. -/
  | close
  /-- The construction `VCFFile snowvcf(file, id, header, vcfheader, nopass, verbose)`. -/
  | vcfFile (file id : String) (nopass verbose : Bool)
  /-- The call `snowvcf.writeIndels(basename, zip, onesample)`, with `include_nonpass`. -/
  | writeIndels (basename : String) (include_nonpass zip onesample : Bool)
  /-- The call `snowvcf.writeSVs(basename, zip, onesample)`, with `include_nonpass`. -/
  | writeSVs (basename : String) (include_nonpass zip onesample : Bool)
  deriving DecidableEq, Repr

/-- The result of a run: how it ended, and what it did to files. -/
structure Outcome where
  result : Except Fatal Unit
  trace : List Event

/-- The code of this repository and of its libraries that `refilter.cpp` calls and that is
declared elsewhere. -/
structure Env (P R : Type) where
  /-- The function `svabaUtils::tokenize_delimited(str, delim)`. -/
  tokenize_delimited : String → Char → List String
  /-- The constructor `BreakPoint(line, hdr)`, where `hdr` is the header of the BAM file
  opened at the path given first; `none` when it does not return an object. -/
  newBreakPoint : String → String → Option (BreakPoint P R)
  /-- The value-initialised `SampleInfo()`. -/
  sampleInfo : SampleInfo P
  /-- The method `queryBreakpoint` of the `DBSnpFilter` built from the database path given
  first and the header of the BAM file at the path given second. -/
  queryBreakpoint : String → String → BreakPoint P R → BreakPoint P R
  /-- The method `BreakPoint::scoreBreakpoint`. -/
  scoreBreakpoint : BreakPoint P R → Dbl → Dbl → Dbl → Dbl → Dbl → Int → BreakPoint P R
  /-- The method `BreakPoint::toFileString`. -/
  toFileString : BreakPoint P R → Bool → String
  /-- The statement `std::istringstream(arg) >> x` for an `int` holding the value given
  second: the value it leaves in `x`. -/
  extractInt : String → Int → Int
  /-- The function `SeqLib::read_access_test`, in the file system left by the events given
  first. -/
  read_access_test : List Event → String → Bool
  /-- The method `SeqLib::BamReader::Open`. -/
  bamOpen : String → Bool

/-! ## `std::map` and `std::string` -/

/-- The member `find`: the value stored under `k`, if any. -/
def AlleleMap.find {P : Type} : AlleleMap P → String → Option (SampleInfo P)
  | [], _ => none
  | (k', v) :: m, k => if k' = k then some v else AlleleMap.find m k

/-- The statement `m[k] = v`: insert at the place the key order gives, or overwrite. -/
def AlleleMap.assign {P : Type} : AlleleMap P → String → SampleInfo P → AlleleMap P
  | [], k, v => [(k, v)]
  | (k', v') :: m, k, v =>
    if k.data < k'.data then (k, v) :: (k', v') :: m
    else if k = k' then (k, v) :: m
    else (k', v') :: AlleleMap.assign m k v

/-- The expression `m[k]` read as a value: a missing key is first inserted with the
value-initialised `SampleInfo` `d`.  Returns the value and the map afterwards. -/
def AlleleMap.index {P : Type} (m : AlleleMap P) (k : String) (d : SampleInfo P) :
    SampleInfo P × AlleleMap P :=
  match AlleleMap.find m k with
  | some v => (v, m)
  | none => (d, AlleleMap.assign m k d)

/-- The function `isspace` of the classic locale. -/
def isspace (c : Char) : Bool :=
  c = ' ' || (9 ≤ c.toNat && c.toNat ≤ 13)

/-- The statement `arg >> s` for a `std::string` holding `old`: leading white space is
skipped; at the end of the text the extraction fails and `s` keeps its value; otherwise
`s` becomes the characters up to the next white space. -/
def extractString (arg : String) (old : String) : String :=
  match (arg.data.dropWhile isspace).takeWhile (fun c => !isspace c) with
  | [] => old
  | c :: cs => String.mk (c :: cs)

/-! ## `parseBreakOptions` -/

/-- The enumerator `OPT_LOD`. -/
def OPT_LOD : Int := 0

/-- The enumerator `OPT_LOD_DB`. -/
def OPT_LOD_DB : Int := 1

/-- The enumerator `OPT_LOD_SOMATIC`. -/
def OPT_LOD_SOMATIC : Int := 2

/-- The enumerator `OPT_LOD_SOMATIC_DB`. -/
def OPT_LOD_SOMATIC_DB : Int := 3

/-- The enumerator `OPT_READ_TRACK`. -/
def OPT_READ_TRACK : Int := 4

/-- The enumerator `OPT_SCALE_ERRORS`. -/
def OPT_SCALE_ERRORS : Int := 5

/-- The enumerator `OPT_PASS_ONLY`. -/
def OPT_PASS_ONLY : Int := 6

/-- The `switch (c)` of the option loop, on the variables of `namespace opt` and the local
`die`.  `c` is the value `getopt_long` returned and `optarg` what it left in `optarg`. -/
def optionCase {P R : Type} (e : Env P R) (st : Opt × Bool) (c : Int)
    (optarg : Option String) : Opt × Bool :=
  let o := st.1
  let arg := optarg.getD ""
  if c = 'h'.toNat then (o, true)
  else if c = 'i'.toNat then ({ o with input_file := extractString arg o.input_file }, st.2)
  else if c = 'v'.toNat then ({ o with verbose := e.extractInt arg o.verbose }, st.2)
  else if c = 'a'.toNat then ({ o with analysis_id := extractString arg o.analysis_id }, st.2)
  else if c = 'D'.toNat then ({ o with dbsnp := extractString arg o.dbsnp }, st.2)
  else if c = OPT_LOD then ({ o with lod := Dbl.extracted arg o.lod }, st.2)
  else if c = OPT_LOD_DB then ({ o with lod_db := Dbl.extracted arg o.lod_db }, st.2)
  else if c = OPT_LOD_SOMATIC then
    ({ o with lod_somatic := Dbl.extracted arg o.lod_somatic }, st.2)
  else if c = OPT_LOD_SOMATIC_DB then
    ({ o with lod_somatic_db := Dbl.extracted arg o.lod_somatic_db }, st.2)
  else if c = OPT_READ_TRACK then ({ o with read_tracking := false }, st.2)
  else if c = OPT_SCALE_ERRORS then
    ({ o with scale_error := Dbl.extracted arg o.scale_error }, st.2)
  else if c = OPT_PASS_ONLY then ({ o with pass_only := true }, st.2)
  else if c = 'b'.toNat then ({ o with bam := extractString arg o.bam }, st.2)
  else st

/-- The option loop, over the values `getopt_long` returns before `-1`. -/
def optionLoop {P R : Type} (e : Env P R) :
    List (Int × Option String) → Opt × Bool → Opt × Bool
  | [], st => st
  | (c, optarg) :: rest, st => optionLoop e rest (optionCase e st c optarg)

/-- The function `parseBreakOptions`, started with the variables of `namespace opt` holding
`o0`: the variables it leaves, or `exit(1)`. -/
def parseBreakOptions {P R : Type} (e : Env P R) (o0 : Opt) (argc : Int)
    (opts : List (Int × Option String)) : Except Fatal Opt :=
  let st := optionLoop e opts (o0, decide (argc ≤ 2))
  let die1 := st.2 || decide (st.1.input_file.length = 0)
  let die2 := die1 || decide (st.1.bam.length = 0)
  if die2 then Except.error (Fatal.exit 1) else Except.ok st.1

/-! ## `runRefilterBreakpoints` -/

/-- The loop over the columns at index 38 and above: `at(0)` throws on an empty column,
the assertion wants a first character `t` or `n`, and the column is appended to
`allele_names`. -/
def headerLoop : List String → List String → Except Fatal (List String)
  | [], allele_names => Except.ok allele_names
  | col :: rest, allele_names =>
    match col.data with
    | [] => Except.error Fatal.out_of_range
    | c :: _ =>
      if c = 't' ∨ c = 'n' then headerLoop rest (allele_names ++ [col])
      else Except.error Fatal.assertion

/-- The check of the tokenized header line: the `allele_names` it declares, or the failure
that ends the run. -/
def headerCheck (headerv : List String) : Except Fatal (List String) :=
  if 39 ≤ headerv.length then headerLoop (headerv.drop 38) [] else Except.error Fatal.assertion

/-- The loop `for (auto& i : allele_names)`, from the value of `id`, of `tmp_alleles` and
of `bp->allele`: the maps `tmp_alleles` and `bp->allele` it leaves. -/
def renameLoop {P : Type} (d : SampleInfo P) :
    List String → String → AlleleMap P → AlleleMap P → AlleleMap P × AlleleMap P
  | [], _, tmp_alleles, allele => (tmp_alleles, allele)
  | i :: rest, id, tmp_alleles, allele =>
    let id1 := id ++ "A"
    let r := AlleleMap.index allele id1 d
    renameLoop d rest id1 (AlleleMap.assign tmp_alleles i r.1) r.2

/-- The rename step: the loop, then `bp->allele = tmp_alleles`.  Returns `tmp_alleles`
and the record. -/
def renameAlleles {P R : Type} (d : SampleInfo P) (allele_names : List String)
    (tmp_alleles : AlleleMap P) (bp : BreakPoint P R) : AlleleMap P × BreakPoint P R :=
  let tmp1 := (renameLoop d allele_names "" tmp_alleles bp.allele).1
  (tmp1, { bp with allele := tmp1 })

/-- The loop `for (auto& i : bp->allele)` on the counters of `bp->dc`. -/
def discLoop {P : Type} : AlleleMap P → DiscordantCluster → Except Fatal DiscordantCluster
  | [], dc => Except.ok dc
  | (k, v) :: rest, dc =>
    match k.data with
    | [] => Except.error Fatal.out_of_range
    | c :: _ =>
      if c = 't' then discLoop rest { dc with tcount := dc.tcount + v.disc }
      else discLoop rest { dc with ncount := dc.ncount + v.disc }

/-- The step "fill in discordant info". -/
def fillDiscordant {P R : Type} (bp : BreakPoint P R) : Except Fatal (BreakPoint P R) :=
  match discLoop bp.allele bp.dc with
  | Except.error f => Except.error f
  | Except.ok dc => Except.ok { bp with dc := dc }

/-- The step "match against DBsnp database": `dbsnp_filter` is `none` for the null pointer
and the path the filter was built from otherwise. -/
def queryDBSnp {P R : Type} (e : Env P R) (o : Opt) (dbsnp_filter : Option String)
    (bp : BreakPoint P R) : BreakPoint P R :=
  match dbsnp_filter with
  | some db => if o.dbsnp.length ≠ 0 then e.queryBreakpoint db o.bam bp else bp
  | none => bp

/-- The step "score them". -/
def score {P R : Type} (e : Env P R) (o : Opt) (bp : BreakPoint P R) : BreakPoint P R :=
  e.scoreBreakpoint bp o.lod o.lod_db o.lod_somatic o.lod_somatic_db o.scale_error 0

/-- The body of the main loop up to the scoring of the record: `tmp_alleles` afterwards
and the scored record. -/
def processRecord {P R : Type} (e : Env P R) (o : Opt) (dbsnp_filter : Option String)
    (allele_names : List String) (tmp_alleles : AlleleMap P) (line : String) :
    Except Fatal (AlleleMap P × BreakPoint P R) :=
  match e.newBreakPoint o.bam line with
  | none => Except.error Fatal.constructor
  | some bp =>
    let r := renameAlleles e.sampleInfo allele_names tmp_alleles bp
    match fillDiscordant r.2 with
    | Except.error f => Except.error f
    | Except.ok bp1 => Except.ok (r.1, score e o (queryDBSnp e o dbsnp_filter bp1))

/-- The body of the main loop: `tmp_alleles` afterwards and the text sent to
`os_allbps_r`. -/
def processRow {P R : Type} (e : Env P R) (o : Opt) (dbsnp_filter : Option String)
    (allele_names : List String) (tmp_alleles : AlleleMap P) (line : String) :
    Except Fatal (AlleleMap P × String) :=
  match processRecord e o dbsnp_filter allele_names tmp_alleles line with
  | Except.error f => Except.error f
  | Except.ok r => Except.ok (r.1, e.toFileString r.2 (!o.read_tracking))

/-- The main read loop over the remaining lines of the input: how it ends (with the final
`tmp_alleles`) and its events. -/
def mainLoop {P R : Type} (e : Env P R) (o : Opt) (dbsnp_filter : Option String)
    (allele_names : List String) :
    AlleleMap P → List String → Except Fatal (AlleleMap P) × List Event
  | tmp_alleles, [] => (Except.ok tmp_alleles, [])
  | tmp_alleles, line :: rest =>
    match processRow e o dbsnp_filter allele_names tmp_alleles line with
    | Except.error f => (Except.error f, [Event.readRow line])
    | Except.ok r =>
      let l := mainLoop e o dbsnp_filter allele_names r.1 rest
      (l.1, Event.readRow line :: Event.write r.2 :: l.2)

/-- The end of `runRefilterBreakpoints`, from `os_allbps_r.close()` on, after the events
`t`. -/
def makeVCFs {P R : Type} (e : Env P R) (o : Opt) (allele_names : List String)
    (t : List Event) : Outcome :=
  let new_bps_file := o.analysis_id ++ ".bps.txt.gz"
  let t1 := t ++ [Event.close]
  if e.read_access_test t1 new_bps_file then
    let one := decide (allele_names.length = 1)
    ⟨Except.ok (), t1 ++ [Event.read_access_test new_bps_file,
      Event.vcfFile new_bps_file o.analysis_id (!o.pass_only) (decide (o.verbose > 0)),
      Event.writeIndels (o.analysis_id ++ ".svaba.unfiltered.") true false one,
      Event.writeSVs (o.analysis_id ++ ".svaba.unfiltered.") true false one,
      Event.writeIndels (o.analysis_id ++ ".svaba.") false false one,
      Event.writeSVs (o.analysis_id ++ ".svaba.") false false one]⟩
  else ⟨Except.ok (), t1 ++ [Event.read_access_test new_bps_file]⟩

/-- The part of `runRefilterBreakpoints` that reads the input: the header line, the main
loop and the end, after the events `t`.  `input` is the sequence of lines that `std::getline`
yields from `infile`. -/
def readInput {P R : Type} (e : Env P R) (o : Opt) (dbsnp_filter : Option String)
    (t : List Event) : List String → Outcome
  | [] => makeVCFs e o [] t
  | headerLine :: rows =>
    match headerCheck (e.tokenize_delimited headerLine '\t') with
    | Except.error f => ⟨Except.error f, t ++ [Event.readHeader headerLine]⟩
    | Except.ok allele_names =>
      let l := mainLoop e o dbsnp_filter allele_names [] rows
      match l.1 with
      | Except.error f => ⟨Except.error f, t ++ Event.readHeader headerLine :: l.2⟩
      | Except.ok _ => makeVCFs e o allele_names (t ++ Event.readHeader headerLine :: l.2)

/-- The value of `dbsnp_filter` after the block "open the DBSnpFilter": the path of the
database when one is configured, the null pointer otherwise. -/
def dbsnpFilterOf (o : Opt) : Option String :=
  if o.dbsnp.length ≠ 0 then some o.dbsnp else none

/-- The value of `namespace opt` during the run, given what `parseBreakOptions` left. -/
def withOutputFile (o : Opt) : Opt :=
  { o with output_file := o.analysis_id ++ ".filtered.bps.txt.gz" }

/-- The function `runRefilterBreakpoints`.  `argc` and `opts` describe the command line
(`opts` is what `getopt_long` returns for it), `input` is the sequence of lines of the
file at `opt::input_file`. -/
def runRefilterBreakpoints {P R : Type} (e : Env P R) (argc : Int)
    (opts : List (Int × Option String)) (input : List String) : Outcome :=
  match parseBreakOptions e opt_init argc opts with
  | Except.error f => ⟨Except.error f, []⟩
  | Except.ok o0 =>
    let o := withOutputFile o0
    if e.read_access_test [] o.input_file then
      if e.bamOpen o.bam then
        let dbsnp_filter := dbsnpFilterOf o
        let t := [Event.read_access_test o.input_file, Event.bamOpen o.bam]
          ++ (if o.dbsnp.length ≠ 0 then [Event.newDBSnpFilter o.dbsnp] else [])
          ++ [Event.fopen (o.analysis_id ++ ".bps.txt.gz"), Event.igzstream o.input_file]
        readInput e o dbsnp_filter t input
      else ⟨Except.error Fatal.assertion,
        [Event.read_access_test o.input_file, Event.bamOpen o.bam]⟩
    else ⟨Except.error (Fatal.exit 1), [Event.read_access_test o.input_file]⟩

/-- The lines written to `os_allbps_r`, in order. -/
def written : List Event → List String
  | [] => []
  | Event.write s :: t => s :: written t
  | _ :: t => written t

/-- The data rows read from `infile`, in order. -/
def rowsRead : List Event → List String
  | [] => []
  | Event.readRow s :: t => s :: rowsRead t
  | _ :: t => rowsRead t

/-! ## Vocabulary of the statements -/

/-- The keys of a map, in iteration order. -/
def AlleleMap.keys {P : Type} (m : AlleleMap P) : List String :=
  m.map Prod.fst

/-- The invariant of `std::map`: the keys are strictly ascending in the order of
`std::string::operator<`. -/
def AlleleMap.Sorted {P : Type} (m : AlleleMap P) : Prop :=
  m.Pairwise (fun a b => a.1.data < b.1.data)

/-- The string `s` begins with the character `c`. -/
def beginsWith (c : Char) (s : String) : Prop :=
  s.data.head? = some c

instance (c : Char) (s : String) : Decidable (beginsWith c s) :=
  inferInstanceAs (Decidable (s.data.head? = some c))

/-- The positional key of the `k`-th sample slot, counted from 1: `k` characters `A`. -/
def posKey (k : Nat) : String :=
  String.mk (List.replicate k 'A')

/-- The sum of the `disc` counts of the entries whose key begins with `c`. -/
def discSum {P : Type} (c : Char) (m : AlleleMap P) : Int :=
  ((m.filter (fun p => decide (beginsWith c p.1))).map (fun p => p.2.disc)).sum

/-! ## A small environment, to evaluate the definitions on concrete inputs -/

/-- Split a text at every occurrence of `delim`; `cur` holds the current token reversed. -/
def splitAt (delim : Char) : List Char → List Char → List String
  | [], cur => [String.mk cur.reverse]
  | c :: cs, cur =>
    if c = delim then String.mk cur.reverse :: splitAt delim cs []
    else splitAt delim cs (c :: cur)

/-- The sample slots of an example row: one slot per character, whose `disc` count is the
value of the digit, under the positional keys `A`, `AA`, ... -/
def exampleSlots : List Char → Nat → AlleleMap Unit
  | [], _ => []
  | c :: cs, k => (posKey (k + 1), ⟨(c.toNat - 48 : Nat), ()⟩) :: exampleSlots cs (k + 1)

/-- An example environment: rows are strings of digits, one digit per sample slot; a row
is written back as its text followed by the two discordant totals; scoring and the database
leave the record as it is. -/
def exampleEnv : Env Unit String where
  tokenize_delimited := fun s delim => splitAt delim s.data []
  newBreakPoint := fun _ line => some ⟨exampleSlots line.data 0, ⟨0, 0⟩, line⟩
  sampleInfo := ⟨0, ()⟩
  queryBreakpoint := fun _ _ bp => bp
  scoreBreakpoint := fun bp _ _ _ _ _ _ => bp
  toFileString := fun bp _ =>
    bp.rest ++ String.mk (Nat.toDigits 10 bp.dc.tcount.toNat) ++ ":"
      ++ String.mk (Nat.toDigits 10 bp.dc.ncount.toNat)
  extractInt := fun _ old => old
  read_access_test := fun _ _ => true
  bamOpen := fun _ => true

/-- The text of an example cutoff: the digits of a literal, `?` for an extracted value. -/
def dblText : Dbl → String
  | Dbl.lit n => String.mk (Nat.toDigits 10 n.toNat)
  | Dbl.extracted _ _ => "?"

/-- An example environment in which the database query and the scoring leave a mark in the
record: the query appends `@` and the path of the database, the scoring appends `#` and
its five cutoffs in the order of the call; the serialization ends with the two discordant
totals. -/
def markingEnv : Env Unit String where
  tokenize_delimited := fun s delim => splitAt delim s.data []
  newBreakPoint := fun _ line => some ⟨exampleSlots line.data 0, ⟨0, 0⟩, line⟩
  sampleInfo := ⟨0, ()⟩
  queryBreakpoint := fun db _ bp => { bp with rest := bp.rest ++ "@" ++ db }
  scoreBreakpoint := fun bp a b c d s _ =>
    { bp with rest := bp.rest ++ "#" ++ dblText a ++ "," ++ dblText b ++ "," ++ dblText c
        ++ "," ++ dblText d ++ "," ++ dblText s }
  toFileString := fun bp _ =>
    bp.rest ++ ";" ++ String.mk (Nat.toDigits 10 bp.dc.tcount.toNat) ++ ":"
      ++ String.mk (Nat.toDigits 10 bp.dc.ncount.toNat)
  extractInt := fun _ old => old
  read_access_test := fun _ _ => true
  bamOpen := fun _ => true

/-- An example record after the rename step: the samples `n1`, `n2` and `t1` with 2, 4
and 5 discordant reads, and discordant counts at zero. -/
def exampleRecord : BreakPoint Unit Unit :=
  ⟨[("n1", ⟨2, ()⟩), ("n2", ⟨4, ()⟩), ("t1", ⟨5, ()⟩)], ⟨0, 0⟩, ()⟩

/-- An example header line: 38 columns `c`, then the sample columns `t1` and `n1`. -/
def exampleHeader : String :=
  String.mk ((List.replicate 38 ['c', '\t']).flatten ++ "t1\tn1".data)

/-- An example command line, `-i in.bps.txt.gz -b x.bam`, as returned by `getopt_long`. -/
def exampleOpts : List (Int × Option String) :=
  [('i'.toNat, some "in.bps.txt.gz"), ('b'.toNat, some "x.bam")]

/-- An example command line with a database, `-i in.bps.txt.gz -b x.bam -D db.vcf`, as
returned by `getopt_long`. -/
def exampleOptsDb : List (Int × Option String) :=
  [('i'.toNat, some "in.bps.txt.gz"), ('b'.toNat, some "x.bam"), ('D'.toNat, some "db.vcf")]

/-! ## Lemmas on `std::map` -/

theorem find_eq_none_iff {P : Type} (m : AlleleMap P) (k : String) :
    AlleleMap.find m k = none ↔ k ∉ AlleleMap.keys m := by
  induction m with
  | nil => simp [AlleleMap.find, AlleleMap.keys]
  | cons a m ih =>
    obtain ⟨k1, v1⟩ := a
    by_cases h : k1 = k
    · simp [AlleleMap.find, AlleleMap.keys, h]
    · have h2 : ¬ k = k1 := fun h3 => h h3.symm
      simp only [AlleleMap.find, if_neg h, ih]
      simp [AlleleMap.keys, h2]

theorem mem_keys_of_find {P : Type} (m : AlleleMap P) (k : String) (v : SampleInfo P)
    (h : AlleleMap.find m k = some v) : k ∈ AlleleMap.keys m := by
  by_contra hk
  rw [(find_eq_none_iff m k).mpr hk] at h
  exact Option.noConfusion h

theorem find_assign {P : Type} (m : AlleleMap P) (k : String) (v : SampleInfo P)
    (k2 : String) :
    AlleleMap.find (AlleleMap.assign m k v) k2 = if k = k2 then some v else AlleleMap.find m k2 := by
  induction m with
  | nil => simp [AlleleMap.find, AlleleMap.assign]
  | cons a m ih =>
    obtain ⟨k1, v1⟩ := a
    by_cases h1 : k.data < k1.data
    · simp only [AlleleMap.assign, if_pos h1, AlleleMap.find]
    · by_cases h2 : k = k1
      · subst h2
        simp only [AlleleMap.assign, if_neg h1, if_true, AlleleMap.find]
        by_cases h3 : k = k2 <;> simp [h3]
      · simp only [AlleleMap.assign, if_neg h1, if_neg h2, AlleleMap.find, ih]
        by_cases h3 : k1 = k2
        · have h4 : ¬ k = k2 := fun h5 => h2 (h5.trans h3.symm)
          simp [h3, h4]
        · simp [h3]

theorem keys_assign {P : Type} (m : AlleleMap P) (k : String) (v : SampleInfo P)
    (k2 : String) :
    k2 ∈ AlleleMap.keys (AlleleMap.assign m k v) ↔ k2 = k ∨ k2 ∈ AlleleMap.keys m := by
  induction m with
  | nil => simp [AlleleMap.keys, AlleleMap.assign]
  | cons a m ih =>
    obtain ⟨k1, v1⟩ := a
    by_cases h1 : k.data < k1.data
    · simp [AlleleMap.assign, if_pos h1, AlleleMap.keys]
    · by_cases h2 : k = k1
      · subst h2
        simp [AlleleMap.assign, if_neg h1, AlleleMap.keys]
      · have ih2 := ih
        simp only [AlleleMap.keys] at ih2
        simp only [AlleleMap.assign, if_neg h1, if_neg h2, AlleleMap.keys, List.map_cons,
          List.mem_cons, ih2]
        tauto

theorem data_lt_of_not {a b : String} (h1 : ¬ a.data < b.data) (h2 : a ≠ b) :
    b.data < a.data := by
  rcases lt_trichotomy a.data b.data with h | h | h
  · exact absurd h h1
  · exact absurd (String.ext h) h2
  · exact h

theorem sorted_assign {P : Type} (m : AlleleMap P) (k : String) (v : SampleInfo P)
    (hs : AlleleMap.Sorted m) : AlleleMap.Sorted (AlleleMap.assign m k v) := by
  induction m with
  | nil => simp [AlleleMap.Sorted, AlleleMap.assign]
  | cons a m ih =>
    obtain ⟨k1, v1⟩ := a
    have hs2 := List.pairwise_cons.mp hs
    by_cases h1 : k.data < k1.data
    · simp only [AlleleMap.assign, if_pos h1]
      refine List.pairwise_cons.mpr ⟨?_, hs⟩
      intro b hb
      rcases List.mem_cons.mp hb with hb | hb
      · subst hb
        exact h1
      · exact lt_trans h1 (hs2.1 b hb)
    · by_cases h2 : k = k1
      · subst h2
        simp only [AlleleMap.assign, if_neg h1, if_true]
        exact List.pairwise_cons.mpr ⟨hs2.1, hs2.2⟩
      · simp only [AlleleMap.assign, if_neg h1, if_neg h2]
        refine List.pairwise_cons.mpr ⟨?_, ih hs2.2⟩
        intro b hb
        have hk : b.1 ∈ AlleleMap.keys (AlleleMap.assign m k v) :=
          List.mem_map_of_mem Prod.fst hb
        rcases (keys_assign m k v b.1).mp hk with hb2 | hb2
        · rw [hb2]
          exact data_lt_of_not h1 h2
        · obtain ⟨c, hc, hc2⟩ := List.mem_map.mp hb2
          rw [← hc2]
          exact hs2.1 c hc

theorem sorted_head_not_mem {P : Type} (k : String) (v : SampleInfo P) (m : AlleleMap P)
    (hs : AlleleMap.Sorted ((k, v) :: m)) : k ∉ AlleleMap.keys m := by
  intro hk
  obtain ⟨c, hc, hc2⟩ := List.mem_map.mp hk
  have h := (List.pairwise_cons.mp hs).1 c hc
  rw [hc2] at h
  exact lt_irrefl _ h

theorem sorted_ext {P : Type} (m1 : AlleleMap P) :
    ∀ m2 : AlleleMap P, AlleleMap.Sorted m1 → AlleleMap.Sorted m2 →
      (∀ k, AlleleMap.find m1 k = AlleleMap.find m2 k) → m1 = m2 := by
  induction m1 with
  | nil =>
    intro m2 _ _ h
    cases m2 with
    | nil => rfl
    | cons b m2 =>
      have h1 := h b.1
      simp [AlleleMap.find] at h1
  | cons a m1 ih =>
    intro m2 hs1 hs2 h
    obtain ⟨k1, v1⟩ := a
    cases m2 with
    | nil =>
      have h1 := h k1
      simp [AlleleMap.find] at h1
    | cons b m2 =>
      obtain ⟨k2, v2⟩ := b
      have hk : k1 = k2 := by
        by_contra hne
        have hne2 : ¬ k2 = k1 := fun h3 => hne h3.symm
        have e1 := h k1
        have e2 := h k2
        simp only [AlleleMap.find, if_true, if_neg hne, if_neg hne2] at e1 e2
        have m1k : k1 ∈ AlleleMap.keys m2 := mem_keys_of_find m2 k1 v1 e1.symm
        have m2k : k2 ∈ AlleleMap.keys m1 := mem_keys_of_find m1 k2 v2 e2
        obtain ⟨c, hc, hc2⟩ := List.mem_map.mp m1k
        obtain ⟨c2, hc3, hc4⟩ := List.mem_map.mp m2k
        have l1 := (List.pairwise_cons.mp hs2).1 c hc
        have l2 := (List.pairwise_cons.mp hs1).1 c2 hc3
        rw [hc2] at l1
        rw [hc4] at l2
        exact lt_irrefl _ (lt_trans l1 l2)
      subst hk
      have hv : v1 = v2 := by
        have e1 := h k1
        simp only [AlleleMap.find, if_true] at e1
        exact Option.some.inj e1
      subst hv
      have ht : m1 = m2 := by
        apply ih m2 (List.pairwise_cons.mp hs1).2 (List.pairwise_cons.mp hs2).2
        intro k
        by_cases hk : k1 = k
        · subst hk
          rw [(find_eq_none_iff m1 k1).mpr (sorted_head_not_mem k1 v1 m1 hs1),
            (find_eq_none_iff m2 k1).mpr (sorted_head_not_mem k1 v1 m2 hs2)]
        · have e1 := h k
          simp only [AlleleMap.find, if_neg hk] at e1
          exact e1
      rw [ht]

theorem index_fst {P : Type} (m : AlleleMap P) (k : String) (d : SampleInfo P) :
    (AlleleMap.index m k d).1 = (AlleleMap.find m k).getD d := by
  unfold AlleleMap.index
  cases h : AlleleMap.find m k <;> simp

theorem find_index_snd {P : Type} (m : AlleleMap P) (k : String) (d : SampleInfo P)
    (k2 : String) (hk : k ≠ k2) :
    AlleleMap.find (AlleleMap.index m k d).2 k2 = AlleleMap.find m k2 := by
  unfold AlleleMap.index
  cases h : AlleleMap.find m k
  · simp [find_assign, hk]
  · simp

/-! ## Lemmas on the rename loop -/

theorem find_renameLoop_of_not_mem {P : Type} (d : SampleInfo P) (names : List String) :
    ∀ (id : String) (tmp al : AlleleMap P) (k : String), k ∉ names →
      AlleleMap.find (renameLoop d names id tmp al).1 k = AlleleMap.find tmp k := by
  induction names with
  | nil => intro id tmp al k _; rfl
  | cons i rest ih =>
    intro id tmp al k hk
    have h1 : ¬ i = k := fun h => hk (by simp [h])
    have h2 : k ∉ rest := fun h => hk (List.mem_cons_of_mem _ h)
    simp only [renameLoop]
    rw [ih _ _ _ k h2, find_assign, if_neg h1]

theorem find_renameLoop_of_mem {P : Type} (d : SampleInfo P) (names : List String) :
    ∀ (id : String) (tmp1 tmp2 al : AlleleMap P) (k : String), k ∈ names →
      AlleleMap.find (renameLoop d names id tmp1 al).1 k
        = AlleleMap.find (renameLoop d names id tmp2 al).1 k := by
  induction names with
  | nil => intro id tmp1 tmp2 al k hk; simp at hk
  | cons i rest ih =>
    intro id tmp1 tmp2 al k hk
    simp only [renameLoop]
    by_cases h2 : k ∈ rest
    · exact ih _ _ _ _ k h2
    · have h3 : k = i := by
        rcases List.mem_cons.mp hk with h | h
        · exact h
        · exact absurd h h2
      subst h3
      rw [find_renameLoop_of_not_mem d rest _ _ _ k h2,
        find_renameLoop_of_not_mem d rest _ _ _ k h2, find_assign, find_assign, if_pos rfl,
        if_pos rfl]

theorem sorted_renameLoop {P : Type} (d : SampleInfo P) (names : List String) :
    ∀ (id : String) (tmp al : AlleleMap P), AlleleMap.Sorted tmp →
      AlleleMap.Sorted (renameLoop d names id tmp al).1 := by
  induction names with
  | nil => intro id tmp al hs; exact hs
  | cons i rest ih =>
    intro id tmp al hs
    simp only [renameLoop]
    exact ih _ _ _ (sorted_assign tmp i _ hs)

theorem keys_renameLoop {P : Type} (d : SampleInfo P) (names : List String) :
    ∀ (id : String) (tmp al : AlleleMap P) (k : String),
      k ∈ AlleleMap.keys (renameLoop d names id tmp al).1 ↔ k ∈ names ∨ k ∈ AlleleMap.keys tmp := by
  induction names with
  | nil => intro id tmp al k; simp [renameLoop]
  | cons i rest ih =>
    intro id tmp al k
    simp only [renameLoop]
    rw [ih, keys_assign, List.mem_cons]
    tauto

theorem renameLoop_fresh {P : Type} (d : SampleInfo P) (names : List String) (id : String)
    (tmp al : AlleleMap P) (hs : AlleleMap.Sorted tmp)
    (hk : ∀ k, k ∈ AlleleMap.keys tmp → k ∈ names) :
    (renameLoop d names id tmp al).1 = (renameLoop d names id [] al).1 := by
  apply sorted_ext _ _ (sorted_renameLoop d names id tmp al hs)
    (sorted_renameLoop d names id [] al List.Pairwise.nil)
  intro k
  by_cases h : k ∈ names
  · exact find_renameLoop_of_mem d names id tmp [] al k h
  · rw [find_renameLoop_of_not_mem d names id tmp al k h,
      find_renameLoop_of_not_mem d names id [] al k h]
    rw [(find_eq_none_iff tmp k).mpr (fun h2 => h (hk k h2))]
    rfl

theorem append_A_data (id : String) : (id ++ "A").data = id.data ++ ['A'] := by
  simp

theorem find_renameLoop_last {P : Type} (d : SampleInfo P) (names : List String) :
    ∀ (id : String) (tmp al : AlleleMap P) (j : Nat) (hj : j < names.length),
      (∀ j2 (h2 : j2 < names.length), j < j2 → names[j2] ≠ names[j]) →
      AlleleMap.find (renameLoop d names id tmp al).1 names[j]
        = some ((AlleleMap.find al (String.mk (id.data ++ List.replicate (j + 1) 'A'))).getD d) := by
  induction names with
  | nil => intro id tmp al j hj; simp at hj
  | cons i rest ih =>
    intro id tmp al j hj hlast
    simp only [renameLoop]
    cases j with
    | zero =>
      have hni : i ∉ rest := by
        intro hmem
        obtain ⟨n, hn, hn2⟩ := List.getElem_of_mem hmem
        have := hlast (n + 1) (by simp; omega) (by omega)
        simp at this
        exact this hn2
      simp only [List.getElem_cons_zero]
      rw [find_renameLoop_of_not_mem d rest _ _ _ i hni, find_assign, if_pos rfl, index_fst]
      have : id ++ "A" = String.mk (id.data ++ List.replicate (0 + 1) 'A') := by
        apply String.ext
        simp
      rw [this]
    | succ j =>
      have hj2 : j < rest.length := by simpa using hj
      have hlast2 : ∀ j2 (h2 : j2 < rest.length), j < j2 → rest[j2] ≠ rest[j] := by
        intro j2 h2 hlt
        have := hlast (j2 + 1) (by simp; omega) (by omega)
        simpa using this
      simp only [List.getElem_cons_succ]
      rw [ih (id ++ "A") _ _ j hj2 hlast2]
      have hkey : String.mk ((id ++ "A").data ++ List.replicate (j + 1) 'A')
          = String.mk (id.data ++ List.replicate (j + 1 + 1) 'A') := by
        apply String.ext
        simp [List.replicate_succ]
      have hne : id ++ "A" ≠ String.mk (id.data ++ List.replicate (j + 1 + 1) 'A') := by
        intro h
        have h2 := congrArg (fun s => s.data.length) h
        simp at h2
      rw [hkey, find_index_snd al (id ++ "A") d _ hne]

/-! ## Lemmas on the header check and the discordant loop -/

theorem headerLoop_ok_iff (cols : List String) :
    ∀ (acc names : List String), headerLoop cols acc = Except.ok names ↔
      ((∀ c ∈ cols, beginsWith 't' c ∨ beginsWith 'n' c) ∧ names = acc ++ cols) := by
  induction cols with
  | nil =>
    intro acc names
    simp only [headerLoop, List.append_nil, List.not_mem_nil, false_imp_iff, forall_const,
      true_and]
    constructor
    · intro h
      injection h with h
      exact h.symm
    · intro h
      rw [h]
  | cons col rest ih =>
    intro acc names
    cases hcol : col.data with
    | nil =>
      simp only [headerLoop, hcol]
      constructor
      · intro h
        exact Except.noConfusion h
      · intro h
        have := h.1 col (List.mem_cons_self _ _)
        simp [beginsWith, hcol] at this
    | cons c cs =>
      by_cases hc : c = 't' ∨ c = 'n'
      · simp only [headerLoop, hcol, if_pos hc]
        rw [ih]
        simp only [List.mem_cons, forall_eq_or_imp, List.append_assoc, List.singleton_append]
        have : beginsWith 't' col ∨ beginsWith 'n' col := by
          simpa [beginsWith, hcol] using hc
        tauto
      · simp only [headerLoop, hcol, if_neg hc]
        constructor
        · intro h
          exact Except.noConfusion h
        · intro h
          have := h.1 col (List.mem_cons_self _ _)
          simp [beginsWith, hcol] at this
          exact absurd this hc

theorem headerCheck_ok_iff (headerv names : List String) :
    headerCheck headerv = Except.ok names ↔
      (39 ≤ headerv.length ∧ (∀ c ∈ headerv.drop 38, beginsWith 't' c ∨ beginsWith 'n' c)
        ∧ names = headerv.drop 38) := by
  unfold headerCheck
  by_cases h : 39 ≤ headerv.length
  · simp only [if_pos h, headerLoop_ok_iff, List.nil_append]
    tauto
  · simp only [if_neg h]
    constructor
    · intro h2
      exact Except.noConfusion h2
    · intro h2
      exact absurd h2.1 h

theorem headerCheck_names_nonempty (headerv names : List String)
    (h : headerCheck headerv = Except.ok names) : ∀ k ∈ names, k.data ≠ [] := by
  obtain ⟨_, h2, h3⟩ := (headerCheck_ok_iff headerv names).mp h
  intro k hk hd
  rw [h3] at hk
  have := h2 k hk
  simp [beginsWith, hd] at this

theorem discLoop_total {P : Type} (m : AlleleMap P) :
    ∀ dc : DiscordantCluster, (∀ p ∈ m, p.1.data ≠ []) → ∃ dc1, discLoop m dc = Except.ok dc1 := by
  induction m with
  | nil => intro dc _; exact ⟨dc, rfl⟩
  | cons a m ih =>
    intro dc h
    obtain ⟨k, v⟩ := a
    have hk := h (k, v) (List.mem_cons_self _ _)
    have hm : ∀ p ∈ m, p.1.data ≠ [] := fun p hp => h p (List.mem_cons_of_mem _ hp)
    cases hd : k.data with
    | nil => exact absurd hd hk
    | cons c cs =>
      by_cases hc : c = 't'
      · simp only [discLoop, hd, if_pos hc]
        exact ih _ hm
      · simp only [discLoop, hd, if_neg hc]
        exact ih _ hm

theorem discLoop_sum {P : Type} (m : AlleleMap P) :
    ∀ dc : DiscordantCluster, (∀ p ∈ m, beginsWith 't' p.1 ∨ beginsWith 'n' p.1) →
      discLoop m dc
        = Except.ok ⟨dc.tcount + discSum 't' m, dc.ncount + discSum 'n' m⟩ := by
  induction m with
  | nil => intro dc _; simp [discLoop, discSum]
  | cons a m ih =>
    intro dc h
    obtain ⟨k, v⟩ := a
    have hk := h (k, v) (List.mem_cons_self _ _)
    have hm : ∀ p ∈ m, beginsWith 't' p.1 ∨ beginsWith 'n' p.1 :=
      fun p hp => h p (List.mem_cons_of_mem _ hp)
    cases hd : k.data with
    | nil => simp [beginsWith, hd] at hk
    | cons c cs =>
      by_cases hc : c = 't'
      · have hn : ¬ c = 'n' := by
          rw [hc]
          decide
        simp only [discLoop, hd, if_pos hc]
        rw [ih _ hm]
        simp [discSum, beginsWith, hd, hc, hn, List.filter_cons, add_assoc]
      · have hn : c = 'n' := by
          simpa [beginsWith, hd, hc] using hk
        have hnt : ¬ 'n' = 't' := by decide
        simp only [discLoop, hd, if_neg hc]
        rw [ih _ hm]
        simp [discSum, beginsWith, hd, hn, hnt, List.filter_cons, add_assoc]

theorem discSum_perm {P : Type} (c : Char) (l m : AlleleMap P) (h : l.Perm m) :
    discSum c l = discSum c m := by
  unfold discSum
  exact ((h.filter _).map _).sum_eq

/-! ## Lemmas on the main loop -/

theorem written_append (a b : List Event) : written (a ++ b) = written a ++ written b := by
  induction a with
  | nil => rfl
  | cons x a ih => cases x <;> simp [written, ih]

theorem rowsRead_append (a b : List Event) : rowsRead (a ++ b) = rowsRead a ++ rowsRead b := by
  induction a with
  | nil => rfl
  | cons x a ih => cases x <;> simp [rowsRead, ih]

theorem renameAlleles_fresh {P R : Type} (d : SampleInfo P) (names : List String)
    (tmp : AlleleMap P) (bp : BreakPoint P R) (hs : AlleleMap.Sorted tmp)
    (hk : ∀ k, k ∈ AlleleMap.keys tmp → k ∈ names) :
    renameAlleles d names tmp bp = renameAlleles d names [] bp := by
  unfold renameAlleles
  rw [renameLoop_fresh d names "" tmp bp.allele hs hk]

theorem processRecord_fresh {P R : Type} (e : Env P R) (o : Opt) (filt : Option String)
    (names : List String) (tmp : AlleleMap P) (line : String) (hs : AlleleMap.Sorted tmp)
    (hk : ∀ k, k ∈ AlleleMap.keys tmp → k ∈ names) :
    processRecord e o filt names tmp line = processRecord e o filt names [] line := by
  unfold processRecord
  cases e.newBreakPoint o.bam line with
  | none => rfl
  | some bp => simp only [renameAlleles_fresh e.sampleInfo names tmp bp hs hk]

theorem processRow_fresh {P R : Type} (e : Env P R) (o : Opt) (filt : Option String)
    (names : List String) (tmp : AlleleMap P) (line : String) (hs : AlleleMap.Sorted tmp)
    (hk : ∀ k, k ∈ AlleleMap.keys tmp → k ∈ names) :
    processRow e o filt names tmp line = processRow e o filt names [] line := by
  unfold processRow
  rw [processRecord_fresh e o filt names tmp line hs hk]

theorem processRecord_tmp {P R : Type} (e : Env P R) (o : Opt) (filt : Option String)
    (names : List String) (tmp : AlleleMap P) (line : String)
    (r : AlleleMap P × BreakPoint P R)
    (h : processRecord e o filt names tmp line = Except.ok r) :
    ∃ bp, e.newBreakPoint o.bam line = some bp
      ∧ r.1 = (renameLoop e.sampleInfo names "" tmp bp.allele).1 := by
  unfold processRecord at h
  cases hp : e.newBreakPoint o.bam line with
  | none =>
    rw [hp] at h
    exact Except.noConfusion h
  | some bp =>
    rw [hp] at h
    refine ⟨bp, rfl, ?_⟩
    simp only at h
    cases hf : fillDiscordant (renameAlleles e.sampleInfo names tmp bp).2 with
    | error f =>
      rw [hf] at h
      exact Except.noConfusion h
    | ok bp1 =>
      rw [hf] at h
      injection h with h
      rw [← h]
      rfl

theorem processRow_tmp {P R : Type} (e : Env P R) (o : Opt) (filt : Option String)
    (names : List String) (tmp : AlleleMap P) (line : String) (r : AlleleMap P × String)
    (h : processRow e o filt names tmp line = Except.ok r) (hs : AlleleMap.Sorted tmp)
    (hk : ∀ k, k ∈ AlleleMap.keys tmp → k ∈ names) :
    AlleleMap.Sorted r.1 ∧ ∀ k, k ∈ AlleleMap.keys r.1 → k ∈ names := by
  unfold processRow at h
  cases hr : processRecord e o filt names tmp line with
  | error f =>
    rw [hr] at h
    exact Except.noConfusion h
  | ok r1 =>
    rw [hr] at h
    injection h with h
    obtain ⟨bp, _, h2⟩ := processRecord_tmp e o filt names tmp line r1 hr
    rw [← h]
    simp only
    rw [h2]
    refine ⟨sorted_renameLoop _ _ _ _ _ hs, ?_⟩
    intro k hk2
    rcases (keys_renameLoop _ _ _ _ _ k).mp hk2 with h3 | h3
    · exact h3
    · exact hk k h3

theorem mainLoop_tmp {P R : Type} (e : Env P R) (o : Opt) (filt : Option String)
    (names : List String) (rows : List String) :
    ∀ (tmp tmp1 : AlleleMap P), (mainLoop e o filt names tmp rows).1 = Except.ok tmp1 →
      AlleleMap.Sorted tmp → (∀ k, k ∈ AlleleMap.keys tmp → k ∈ names) →
      AlleleMap.Sorted tmp1 ∧ ∀ k, k ∈ AlleleMap.keys tmp1 → k ∈ names := by
  induction rows with
  | nil =>
    intro tmp tmp1 h hs hk
    simp only [mainLoop] at h
    injection h with h
    rw [← h]
    exact ⟨hs, hk⟩
  | cons line rest ih =>
    intro tmp tmp1 h hs hk
    simp only [mainLoop] at h
    cases hr : processRow e o filt names tmp line with
    | error f =>
      rw [hr] at h
      exact Except.noConfusion h
    | ok r =>
      rw [hr] at h
      obtain ⟨h1, h2⟩ := processRow_tmp e o filt names tmp line r hr hs hk
      exact ih r.1 tmp1 h h1 h2

theorem processRow_of_parse {P R : Type} (e : Env P R) (o : Opt) (filt : Option String)
    (names : List String) (line : String) (bp : BreakPoint P R)
    (hn : ∀ k ∈ names, k.data ≠ []) (hp : e.newBreakPoint o.bam line = some bp) :
    ∃ bp1, fillDiscordant (renameAlleles e.sampleInfo names [] bp).2 = Except.ok bp1
      ∧ processRow e o filt names [] line
        = Except.ok ((renameAlleles e.sampleInfo names [] bp).1,
            e.toFileString (score e o (queryDBSnp e o filt bp1)) (!o.read_tracking)) := by
  have hkeys : ∀ p ∈ (renameAlleles e.sampleInfo names [] bp).2.allele, p.1.data ≠ [] := by
    intro p hp2
    have h1 : p.1 ∈ AlleleMap.keys (renameLoop e.sampleInfo names "" [] bp.allele).1 :=
      List.mem_map_of_mem Prod.fst hp2
    rcases (keys_renameLoop _ _ _ _ _ p.1).mp h1 with h3 | h3
    · exact hn _ h3
    · simp [AlleleMap.keys] at h3
  obtain ⟨dc1, hdc⟩ := discLoop_total _ (renameAlleles e.sampleInfo names [] bp).2.dc hkeys
  refine ⟨{ (renameAlleles e.sampleInfo names [] bp).2 with dc := dc1 }, ?_, ?_⟩
  · simp only [fillDiscordant, hdc]
  · simp only [processRow, processRecord, hp, fillDiscordant, hdc]

theorem mainLoop_written {P R : Type} (e : Env P R) (o : Opt) (filt : Option String)
    (names : List String) (rows : List String) :
    ∀ (tmp : AlleleMap P), AlleleMap.Sorted tmp → (∀ k, k ∈ AlleleMap.keys tmp → k ∈ names) →
      (∀ line ∈ rows, ∃ r, processRow e o filt names [] line = Except.ok r) →
      (∃ tmp1, (mainLoop e o filt names tmp rows).1 = Except.ok tmp1)
      ∧ List.Forall₂ (fun line s => ∃ t, processRow e o filt names [] line = Except.ok (t, s))
          rows (written (mainLoop e o filt names tmp rows).2)
      ∧ rowsRead (mainLoop e o filt names tmp rows).2 = rows := by
  induction rows with
  | nil =>
    intro tmp _ _ _
    exact ⟨⟨tmp, rfl⟩, List.Forall₂.nil, rfl⟩
  | cons line rest ih =>
    intro tmp hs hk hrows
    obtain ⟨r, hr⟩ := hrows line (List.mem_cons_self _ _)
    have hr2 : processRow e o filt names tmp line = Except.ok r := by
      rw [processRow_fresh e o filt names tmp line hs hk, hr]
    obtain ⟨h1, h2⟩ := processRow_tmp e o filt names tmp line r hr2 hs hk
    obtain ⟨i1, i2, i3⟩ := ih r.1 h1 h2 (fun l hl => hrows l (List.mem_cons_of_mem _ hl))
    simp only [mainLoop, hr2, written, rowsRead]
    refine ⟨i1, List.Forall₂.cons ⟨r.1, hr⟩ i2, ?_⟩
    rw [i3]

/-! ## Lemmas on the option loop -/

theorem ite_ind {α : Type} (p : α → Prop) (c : Prop) [Decidable c] (a b : α)
    (ha : c → p a) (hb : ¬ c → p b) : p (if c then a else b) := by
  by_cases h : c
  · rw [if_pos h]
    exact ha h
  · rw [if_neg h]
    exact hb h

theorem optionCase_read_tracking {P R : Type} (e : Env P R) (st : Opt × Bool) (c : Int)
    (optarg : Option String) (h : st.1.read_tracking = false) :
    (optionCase e st c optarg).1.read_tracking = false := by
  unfold optionCase
  repeat' first
    | exact h
    | rfl
    | intro _
    | refine ite_ind (fun x : Opt × Bool => x.1.read_tracking = false) _ _ _ ?_ ?_

theorem optionLoop_read_tracking {P R : Type} (e : Env P R)
    (opts : List (Int × Option String)) :
    ∀ st : Opt × Bool, st.1.read_tracking = false →
      (optionLoop e opts st).1.read_tracking = false := by
  induction opts with
  | nil => intro st h; exact h
  | cons a opts ih =>
    intro st h
    obtain ⟨c, optarg⟩ := a
    simp only [optionLoop]
    exact ih _ (optionCase_read_tracking e st c optarg h)

theorem optionCase_die {P R : Type} (e : Env P R) (st : Opt × Bool) (c : Int)
    (optarg : Option String) :
    (optionCase e st c optarg).2 = (st.2 || decide (c = 'h'.toNat)) := by
  unfold optionCase
  by_cases h : c = 'h'.toNat
  · rw [if_pos h, decide_eq_true h, Bool.or_true]
  · rw [if_neg h, decide_eq_false h, Bool.or_false]
    repeat' first
      | rfl
      | intro _
      | refine ite_ind (fun x : Opt × Bool => x.2 = st.2) _ _ _ ?_ ?_

theorem optionLoop_die {P R : Type} (e : Env P R) (opts : List (Int × Option String)) :
    ∀ st : Opt × Bool,
      (optionLoop e opts st).2 = (st.2 || opts.any (fun p => decide (p.1 = 'h'.toNat))) := by
  induction opts with
  | nil => intro st; simp [optionLoop]
  | cons a opts ih =>
    intro st
    obtain ⟨c, optarg⟩ := a
    simp only [optionLoop, ih, optionCase_die, List.any_cons, Bool.or_assoc]

/-- The events of a run before the input is read. -/
theorem run_of_parse {P R : Type} (e : Env P R) (argc : Int)
    (opts : List (Int × Option String)) (input : List String) (o : Opt)
    (hp : parseBreakOptions e opt_init argc opts = Except.ok o)
    (ha : e.read_access_test [] (withOutputFile o).input_file = true)
    (hb : e.bamOpen (withOutputFile o).bam = true) :
    ∃ t, written t = [] ∧ rowsRead t = [] ∧
      runRefilterBreakpoints e argc opts input
        = readInput e (withOutputFile o) (dbsnpFilterOf (withOutputFile o)) t input := by
  refine ⟨[Event.read_access_test (withOutputFile o).input_file,
      Event.bamOpen (withOutputFile o).bam]
    ++ (if (withOutputFile o).dbsnp.length ≠ 0
        then [Event.newDBSnpFilter (withOutputFile o).dbsnp] else [])
    ++ [Event.fopen ((withOutputFile o).analysis_id ++ ".bps.txt.gz"),
      Event.igzstream (withOutputFile o).input_file], ?_, ?_, ?_⟩
  · split_ifs <;> rfl
  · split_ifs <;> rfl
  · simp only [runRefilterBreakpoints, hp, ha, hb, if_true]

theorem makeVCFs_spec {P R : Type} (e : Env P R) (o : Opt) (names : List String)
    (t : List Event) :
    (makeVCFs e o names t).result = Except.ok ()
    ∧ written (makeVCFs e o names t).trace = written t
    ∧ rowsRead (makeVCFs e o names t).trace = rowsRead t := by
  unfold makeVCFs
  simp only
  split_ifs <;> simp [written_append, rowsRead_append, written, rowsRead]

theorem mainLoop_le {P R : Type} (e : Env P R) (o : Opt) (filt : Option String)
    (names : List String) (rows : List String) :
    ∀ tmp : AlleleMap P,
      (written (mainLoop e o filt names tmp rows).2).length ≤ rows.length
      ∧ (rowsRead (mainLoop e o filt names tmp rows).2).length ≤ rows.length := by
  induction rows with
  | nil => intro tmp; simp [mainLoop, written, rowsRead]
  | cons line rest ih =>
    intro tmp
    simp only [mainLoop]
    cases hr : processRow e o filt names tmp line with
    | error f => simp [written, rowsRead]
    | ok r =>
      have := ih r.1
      simp only [written, rowsRead, List.length_cons]
      omega

theorem readInput_le {P R : Type} (e : Env P R) (o : Opt) (filt : Option String)
    (t : List Event) (input : List String) :
    (written (readInput e o filt t input).trace).length
        ≤ (written t).length + (input.length - 1)
    ∧ (rowsRead (readInput e o filt t input).trace).length
        ≤ (rowsRead t).length + (input.length - 1) := by
  cases input with
  | nil =>
    have h := makeVCFs_spec e o [] t
    simp only [readInput, h.2.1, h.2.2]
    omega
  | cons headerLine rows =>
    simp only [readInput]
    cases hh : headerCheck (e.tokenize_delimited headerLine '\t') with
    | error f => simp [written_append, rowsRead_append, written, rowsRead]
    | ok names =>
      have hl := mainLoop_le e o filt names rows ([] : AlleleMap P)
      simp only
      cases hm : (mainLoop e o filt names [] rows).1 with
      | error f =>
        simp only [written_append, rowsRead_append, written, rowsRead, List.length_append,
          List.length_cons, Nat.add_sub_cancel]
        omega
      | ok tmp1 =>
        have h := makeVCFs_spec e o names
          (t ++ Event.readHeader headerLine :: (mainLoop e o filt names [] rows).2)
        simp only [h.2.1, h.2.2, written_append, rowsRead_append, written, rowsRead,
          List.length_append, List.length_cons, Nat.add_sub_cancel]
        omega

theorem run_le {P R : Type} (e : Env P R) (argc : Int) (opts : List (Int × Option String))
    (input : List String) :
    (written (runRefilterBreakpoints e argc opts input).trace).length ≤ input.length - 1
    ∧ (rowsRead (runRefilterBreakpoints e argc opts input).trace).length
        ≤ input.length - 1 := by
  cases hp : parseBreakOptions e opt_init argc opts with
  | error f => simp [runRefilterBreakpoints, hp, written, rowsRead]
  | ok o =>
    by_cases ha : e.read_access_test [] (withOutputFile o).input_file = true
    · by_cases hb : e.bamOpen (withOutputFile o).bam = true
      · obtain ⟨t, h1, h2, h3⟩ := run_of_parse e argc opts input o hp ha hb
        have := readInput_le e (withOutputFile o) (dbsnpFilterOf (withOutputFile o)) t input
        rw [h3]
        rw [h1, h2] at this
        simpa using this
      · simp [runRefilterBreakpoints, hp, ha, hb, written, rowsRead]
    · simp [runRefilterBreakpoints, hp, ha, written, rowsRead]

theorem strictAsc_ext (l1 : List String) :
    ∀ l2 : List String, l1.Pairwise (fun a b => a.data < b.data) →
      l2.Pairwise (fun a b => a.data < b.data) → (∀ k, k ∈ l1 ↔ k ∈ l2) → l1 = l2 := by
  induction l1 with
  | nil =>
    intro l2 _ _ h
    cases l2 with
    | nil => rfl
    | cons b l2 => exact absurd ((h b).mpr (List.mem_cons_self _ _)) (List.not_mem_nil b)
  | cons a l1 ih =>
    intro l2 hs1 hs2 h
    cases l2 with
    | nil => exact absurd ((h a).mp (List.mem_cons_self _ _)) (List.not_mem_nil a)
    | cons b l2 =>
      have p1 := List.pairwise_cons.mp hs1
      have p2 := List.pairwise_cons.mp hs2
      have hab : a = b := by
        by_contra hne
        have m1 : a ∈ l2 := by
          rcases List.mem_cons.mp ((h a).mp (List.mem_cons_self _ _)) with h3 | h3
          · exact absurd h3 hne
          · exact h3
        have m2 : b ∈ l1 := by
          rcases List.mem_cons.mp ((h b).mpr (List.mem_cons_self _ _)) with h3 | h3
          · exact absurd h3.symm hne
          · exact h3
        exact lt_irrefl _ (lt_trans (p1.1 b m2) (p2.1 a m1))
      subst hab
      have ht : l1 = l2 := by
        apply ih l2 p1.2 p2.2
        intro k
        constructor
        · intro hk
          rcases List.mem_cons.mp ((h k).mp (List.mem_cons_of_mem _ hk)) with h3 | h3
          · rw [h3] at hk
            exact absurd (p1.1 a hk) (lt_irrefl _)
          · exact h3
        · intro hk
          rcases List.mem_cons.mp ((h k).mpr (List.mem_cons_of_mem _ hk)) with h3 | h3
          · rw [h3] at hk
            exact absurd (p2.1 a hk) (lt_irrefl _)
          · exact h3
      rw [ht]

/-! ## More lemmas used by the statements -/

theorem forall_drop_iff (l : List String) (n : Nat) (p : String → Prop) :
    (∀ c ∈ l.drop n, p c) ↔ ∀ i (hi : i < l.length), n ≤ i → p l[i] := by
  constructor
  · intro h i hi hn
    apply h
    rw [List.mem_drop_iff_getElem]
    refine ⟨i - n, by omega, ?_⟩
    congr 1
    omega
  · intro h c hc
    rw [List.mem_drop_iff_getElem] at hc
    obtain ⟨i, hm, rfl⟩ := hc
    exact h (n + i) (by omega) (by omega)

theorem mainLoop_append {P R : Type} (e : Env P R) (o : Opt) (filt : Option String)
    (names : List String) (pre : List String) :
    ∀ (tmp tmp1 : AlleleMap P) (rest : List String),
      (mainLoop e o filt names tmp pre).1 = Except.ok tmp1 →
      (written (mainLoop e o filt names tmp pre).2).length = pre.length
      ∧ mainLoop e o filt names tmp (pre ++ rest)
        = ((mainLoop e o filt names tmp1 rest).1,
            (mainLoop e o filt names tmp pre).2 ++ (mainLoop e o filt names tmp1 rest).2) := by
  induction pre with
  | nil =>
    intro tmp tmp1 rest h
    simp only [mainLoop] at h
    injection h with h
    subst h
    simp [mainLoop, written]
  | cons line pre ih =>
    intro tmp tmp1 rest h
    simp only [mainLoop] at h
    cases hr : processRow e o filt names tmp line with
    | error f =>
      rw [hr] at h
      exact Except.noConfusion h
    | ok r =>
      rw [hr] at h
      obtain ⟨h1, h2⟩ := ih r.1 tmp1 rest h
      refine ⟨?_, ?_⟩
      · simp only [mainLoop, hr, written, List.length_cons, h1]
      · show mainLoop e o filt names tmp (line :: (pre ++ rest)) = _
        simp only [mainLoop, hr, h2, List.cons_append]

/-! ## The properties of the specification -/

/-- C1 (counterexample).  With the sample columns `t1`, `n1` the header is accepted and
declares the list `t1`, `n1`; a record with both positional slots has, after the rename
step, the keys `n1`, `t1` in iteration order: not the header order. -/
theorem rename_keys_not_in_header_order :
    headerCheck (exampleEnv.tokenize_delimited exampleHeader '\t') = Except.ok ["t1", "n1"]
    ∧ (exampleEnv.tokenize_delimited exampleHeader '\t').drop 38 = ["t1", "n1"]
    ∧ exampleEnv.newBreakPoint "x.bam" "52"
        = some ⟨[("A", ⟨5, ()⟩), ("AA", ⟨2, ()⟩)], ⟨0, 0⟩, "52"⟩
    ∧ AlleleMap.keys (renameAlleles exampleEnv.sampleInfo ["t1", "n1"] []
        (⟨[("A", ⟨5, ()⟩), ("AA", ⟨2, ()⟩)], ⟨0, 0⟩, "52"⟩ : BreakPoint Unit String)).2.allele
        = ["n1", "t1"]
    ∧ AlleleMap.keys (renameAlleles exampleEnv.sampleInfo ["t1", "n1"] []
        (⟨[("A", ⟨5, ()⟩), ("AA", ⟨2, ()⟩)], ⟨0, 0⟩, "52"⟩ : BreakPoint Unit String)).2.allele
        ≠ (exampleEnv.tokenize_delimited exampleHeader '\t').drop 38 := by
  refine ⟨by rfl, by decide, by rfl, by decide, by decide⟩

/-- C1 (amended).  For every accepted header and every data row of the run (reached after
any rows `pre`), after the rename step the keys of the record's allele mapping, in
iteration order, are strictly ascending in the order of `std::string`, and are exactly the
declared sample names (the columns at index 38 and above), so they are the declared list
in header order when the header declares the names in strictly ascending order; a declared
name that is not
declared again further right carries the evidence the parsed record held under its
positional key (`j + 1` characters `A` for the column `38 + j`), and a value-initialised
`SampleInfo` when the record has no such key. -/
theorem rename_keys_are_sorted_header_names {P R : Type} (e : Env P R) (o : Opt)
    (filt : Option String) (headerv names : List String)
    (hacc : headerCheck headerv = Except.ok names)
    (pre : List String) (tmp : AlleleMap P)
    (hpre : (mainLoop e o filt names [] pre).1 = Except.ok tmp) (bp : BreakPoint P R) :
    (AlleleMap.keys (renameAlleles e.sampleInfo names tmp bp).2.allele).Pairwise
        (fun a b => a.data < b.data)
    ∧ (∀ k, k ∈ AlleleMap.keys (renameAlleles e.sampleInfo names tmp bp).2.allele
        ↔ k ∈ headerv.drop 38)
    ∧ ((headerv.drop 38).Pairwise (fun a b => a.data < b.data) →
        AlleleMap.keys (renameAlleles e.sampleInfo names tmp bp).2.allele = headerv.drop 38)
    ∧ ∀ j (hj : j < names.length),
        (∀ j2 (h2 : j2 < names.length), j < j2 → names[j2] ≠ names[j]) →
        AlleleMap.find (renameAlleles e.sampleInfo names tmp bp).2.allele names[j]
          = some ((AlleleMap.find bp.allele (posKey (j + 1))).getD e.sampleInfo) := by
  obtain ⟨hs, hk⟩ := mainLoop_tmp e o filt names pre [] tmp hpre List.Pairwise.nil
    (by intro k hk; simp [AlleleMap.keys] at hk)
  have hn : names = headerv.drop 38 := ((headerCheck_ok_iff headerv names).mp hacc).2.2
  have hsort : (AlleleMap.keys (renameAlleles e.sampleInfo names tmp bp).2.allele).Pairwise
      (fun a b => a.data < b.data) :=
    List.pairwise_map.mpr (sorted_renameLoop e.sampleInfo names "" tmp bp.allele hs)
  have hmem : ∀ k, k ∈ AlleleMap.keys (renameAlleles e.sampleInfo names tmp bp).2.allele
      ↔ k ∈ headerv.drop 38 := by
    intro k
    rw [← hn]
    show k ∈ AlleleMap.keys (renameLoop e.sampleInfo names "" tmp bp.allele).1 ↔ k ∈ names
    rw [keys_renameLoop]
    constructor
    · intro h
      rcases h with h | h
      · exact h
      · exact hk k h
    · intro h
      exact Or.inl h
  refine ⟨hsort, hmem, fun hasc => strictAsc_ext _ _ hsort hasc hmem, ?_⟩
  · intro j hj hlast
    show AlleleMap.find (renameLoop e.sampleInfo names "" tmp bp.allele).1 names[j] = _
    rw [find_renameLoop_last e.sampleInfo names "" tmp bp.allele j hj hlast]
    rfl

/-- C1 (witness).  The amended statement at the sample columns `t1`, `n1`, for the row
`52` read after the row `7`. -/
theorem rename_keys_are_sorted_header_names_witness :
    (headerCheck (exampleEnv.tokenize_delimited exampleHeader '\t') = Except.ok ["t1", "n1"]
      ∧ (mainLoop exampleEnv opt_init none ["t1", "n1"] [] ["7"]).1
          = Except.ok [("n1", ⟨0, ()⟩), ("t1", ⟨7, ()⟩)])
    ∧ AlleleMap.find (renameAlleles exampleEnv.sampleInfo ["t1", "n1"]
          [("n1", ⟨0, ()⟩), ("t1", ⟨7, ()⟩)]
          (⟨[("A", ⟨5, ()⟩), ("AA", ⟨2, ()⟩)], ⟨0, 0⟩, "52"⟩ : BreakPoint Unit String)).2.allele
        "n1" = some ⟨2, ()⟩ :=
  ⟨⟨by rfl, by rfl⟩,
    ((rename_keys_are_sorted_header_names exampleEnv opt_init none
      (exampleEnv.tokenize_delimited exampleHeader '\t') ["t1", "n1"] (by rfl) ["7"]
      [("n1", ⟨0, ()⟩), ("t1", ⟨7, ()⟩)] (by rfl)
      ⟨[("A", ⟨5, ()⟩), ("AA", ⟨2, ()⟩)], ⟨0, 0⟩, "52"⟩).2.2.2 1 (by decide)
      (by intro j2 h2 hlt; simp at h2; omega))⟩

/-- C2.  For a record whose discordant counts are zero and whose allele keys all begin
with `t` or `n`, the discordant loop ends normally, leaves in `dc.tcount` the sum of the
`disc` counts of the samples whose name begins with `t` and in `dc.ncount` the sum over the
names that begin with `n`, changes neither the allele mapping nor any other member, and
gives the same totals when the samples are visited in any other order. -/
theorem fillDiscordant_sums {P R : Type} (bp : BreakPoint P R)
    (hz : bp.dc.tcount = 0 ∧ bp.dc.ncount = 0)
    (hk : ∀ k ∈ AlleleMap.keys bp.allele, beginsWith 't' k ∨ beginsWith 'n' k) :
    ∃ bp1, fillDiscordant bp = Except.ok bp1
      ∧ bp1.dc.tcount = discSum 't' bp.allele
      ∧ bp1.dc.ncount = discSum 'n' bp.allele
      ∧ bp1.allele = bp.allele
      ∧ bp1.rest = bp.rest
      ∧ ∀ l : AlleleMap P, l.Perm bp.allele → discLoop l bp.dc = Except.ok bp1.dc := by
  have hk2 : ∀ p ∈ bp.allele, beginsWith 't' p.1 ∨ beginsWith 'n' p.1 :=
    fun p hp => hk p.1 (List.mem_map_of_mem Prod.fst hp)
  have hsum := discLoop_sum bp.allele bp.dc hk2
  refine ⟨{ bp with dc := ⟨bp.dc.tcount + discSum 't' bp.allele,
    bp.dc.ncount + discSum 'n' bp.allele⟩ }, ?_, ?_, ?_, rfl, rfl, ?_⟩
  · simp only [fillDiscordant, hsum]
  · simp [hz.1]
  · simp [hz.2]
  · intro l hl
    have hk3 : ∀ p ∈ l, beginsWith 't' p.1 ∨ beginsWith 'n' p.1 :=
      fun p hp => hk2 p (hl.mem_iff.mp hp)
    rw [discLoop_sum l bp.dc hk3, discSum_perm 't' l bp.allele hl,
      discSum_perm 'n' l bp.allele hl]

/-- C2 (witness).  The record with `n1` at 2, `n2` at 4 and `t1` at 5 discordant reads gets
`tcount = 5` and `ncount = 6`. -/
theorem fillDiscordant_sums_witness :
    ((exampleRecord.dc.tcount = 0 ∧ exampleRecord.dc.ncount = 0)
      ∧ ∀ k ∈ AlleleMap.keys exampleRecord.allele, beginsWith 't' k ∨ beginsWith 'n' k)
    ∧ ∃ bp1, fillDiscordant exampleRecord = Except.ok bp1
        ∧ bp1.dc.tcount = 5 ∧ bp1.dc.ncount = 6 ∧ bp1.allele = exampleRecord.allele :=
  ⟨⟨⟨rfl, rfl⟩, by decide⟩, by
    obtain ⟨bp1, h1, h2, h3, h4, _⟩ := fillDiscordant_sums exampleRecord ⟨rfl, rfl⟩ (by decide)
    exact ⟨bp1, h1, by rw [h2]; decide, by rw [h3]; decide, h4⟩⟩

/-- C3 (counterexample).  The header declares the samples `t1` and `n1`; the row `5`
parses into a record with the single positional slot `A`, so the key `AA` of the second
declared sample is missing.  The run ends normally and the row is written to the table. -/
theorem row_with_missing_slot_is_written :
    headerCheck (exampleEnv.tokenize_delimited exampleHeader '\t') = Except.ok ["t1", "n1"]
    ∧ exampleEnv.newBreakPoint "x.bam" "5" = some ⟨[("A", ⟨5, ()⟩)], ⟨0, 0⟩, "5"⟩
    ∧ AlleleMap.find ([("A", ⟨5, ()⟩)] : AlleleMap Unit) (posKey 2) = none
    ∧ (runRefilterBreakpoints exampleEnv 5 exampleOpts [exampleHeader, "5"]).result
        = Except.ok ()
    ∧ written (runRefilterBreakpoints exampleEnv 5 exampleOpts [exampleHeader, "5"]).trace
        = ["55:0"] := by
  refine ⟨by rfl, by rfl, by rfl, by rfl, by decide⟩

/-- C3 (amended).  For every accepted header and every data row of the run whose parsed
record lacks the positional key of a declared sample, the lookup `bp->allele[id]` yields a
value-initialised `SampleInfo` and no error is raised: the discordant loop ends normally,
the declared sample (when its name is not declared again further right) carries the
value-initialised `SampleInfo`, and the row is scored and written to the table like any
other row. -/
theorem row_with_missing_slot_gets_default {P R : Type} (e : Env P R) (o : Opt)
    (filt : Option String) (headerv names : List String)
    (hacc : headerCheck headerv = Except.ok names)
    (pre : List String) (tmp : AlleleMap P)
    (hpre : (mainLoop e o filt names [] pre).1 = Except.ok tmp)
    (line : String) (bp : BreakPoint P R) (hparse : e.newBreakPoint o.bam line = some bp)
    (j : Nat) (hj : j < names.length)
    (hmiss : AlleleMap.find bp.allele (posKey (j + 1)) = none) :
    ∃ bp1, fillDiscordant (renameAlleles e.sampleInfo names tmp bp).2 = Except.ok bp1
      ∧ ((∀ j2 (h2 : j2 < names.length), j < j2 → names[j2] ≠ names[j]) →
          AlleleMap.find (renameAlleles e.sampleInfo names tmp bp).2.allele names[j]
            = some e.sampleInfo)
      ∧ (mainLoop e o filt names tmp [line]).1
          = Except.ok (renameAlleles e.sampleInfo names tmp bp).1
      ∧ written (mainLoop e o filt names tmp [line]).2
          = [e.toFileString (score e o (queryDBSnp e o filt bp1)) (!o.read_tracking)] := by
  obtain ⟨hs, hk⟩ := mainLoop_tmp e o filt names pre [] tmp hpre List.Pairwise.nil
    (by intro k hk; simp [AlleleMap.keys] at hk)
  have hfresh := renameAlleles_fresh e.sampleInfo names tmp bp hs hk
  obtain ⟨bp1, hf, hrow⟩ := processRow_of_parse e o filt names line bp
    (headerCheck_names_nonempty headerv names hacc) hparse
  have hrow2 : processRow e o filt names tmp line
      = Except.ok ((renameAlleles e.sampleInfo names tmp bp).1,
          e.toFileString (score e o (queryDBSnp e o filt bp1)) (!o.read_tracking)) := by
    rw [processRow_fresh e o filt names tmp line hs hk, hrow, hfresh]
  refine ⟨bp1, by rw [hfresh]; exact hf, ?_, ?_, ?_⟩
  · intro hlast
    show AlleleMap.find (renameLoop e.sampleInfo names "" tmp bp.allele).1 names[j] = _
    rw [find_renameLoop_last e.sampleInfo names "" tmp bp.allele j hj hlast]
    have : String.mk ("".data ++ List.replicate (j + 1) 'A') = posKey (j + 1) := rfl
    rw [this, hmiss]
    rfl
  · simp only [mainLoop, hrow2]
  · simp only [mainLoop, hrow2, written]

/-- C3 (witness).  The amended statement at the sample columns `t1`, `n1` and the row
`5`, which has no slot `AA`. -/
theorem row_with_missing_slot_gets_default_witness :
    (headerCheck (exampleEnv.tokenize_delimited exampleHeader '\t') = Except.ok ["t1", "n1"]
      ∧ (mainLoop exampleEnv opt_init none ["t1", "n1"] [] []).1 = Except.ok []
      ∧ exampleEnv.newBreakPoint opt_init.bam "5" = some ⟨[("A", ⟨5, ()⟩)], ⟨0, 0⟩, "5"⟩
      ∧ AlleleMap.find ([("A", ⟨5, ()⟩)] : AlleleMap Unit) (posKey (1 + 1)) = none)
    ∧ ∃ bp1, fillDiscordant (renameAlleles exampleEnv.sampleInfo ["t1", "n1"] []
          (⟨[("A", ⟨5, ()⟩)], ⟨0, 0⟩, "5"⟩ : BreakPoint Unit String)).2 = Except.ok bp1
        ∧ written (mainLoop exampleEnv opt_init none ["t1", "n1"] [] ["5"]).2
          = [exampleEnv.toFileString
              (score exampleEnv opt_init (queryDBSnp exampleEnv opt_init none bp1))
              (!opt_init.read_tracking)] :=
  ⟨⟨by rfl, by rfl, by rfl, by rfl⟩, by
    obtain ⟨bp1, h1, _, _, h4⟩ := row_with_missing_slot_gets_default exampleEnv opt_init none
      (exampleEnv.tokenize_delimited exampleHeader '\t') ["t1", "n1"] (by rfl) [] []
      (by rfl) "5" ⟨[("A", ⟨5, ()⟩)], ⟨0, 0⟩, "5"⟩ (by rfl) 1 (by decide) (by rfl)
    exact ⟨bp1, h1, h4⟩⟩

/-- C4.  The header check accepts the tokenized header line exactly when it has at least
39 columns (the 38 fixed columns and one sample column) and every column at index 38 or
above begins with `t` or `n`; on acceptance the declared sample list is the columns from
index 38 on, in order; on rejection the run ends with a failure, and no data row has been
read or written. -/
theorem header_check_accepts_iff {P R : Type} (e : Env P R) (argc : Int)
    (opts : List (Int × Option String)) (headerLine : String) (rows : List String) :
    ((∃ names, headerCheck (e.tokenize_delimited headerLine '\t') = Except.ok names) ↔
      (39 ≤ (e.tokenize_delimited headerLine '\t').length
        ∧ ∀ i (hi : i < (e.tokenize_delimited headerLine '\t').length), 38 ≤ i →
            beginsWith 't' (e.tokenize_delimited headerLine '\t')[i]
              ∨ beginsWith 'n' (e.tokenize_delimited headerLine '\t')[i]))
    ∧ (∀ names, headerCheck (e.tokenize_delimited headerLine '\t') = Except.ok names →
        names = (e.tokenize_delimited headerLine '\t').drop 38)
    ∧ ((∀ names, headerCheck (e.tokenize_delimited headerLine '\t') ≠ Except.ok names) →
        (∃ f, (runRefilterBreakpoints e argc opts (headerLine :: rows)).result
            = Except.error f)
        ∧ rowsRead (runRefilterBreakpoints e argc opts (headerLine :: rows)).trace = []
        ∧ written (runRefilterBreakpoints e argc opts (headerLine :: rows)).trace = []) := by
  refine ⟨?_, ?_, ?_⟩
  · have hd := forall_drop_iff (e.tokenize_delimited headerLine '\t') 38
      (fun c => beginsWith 't' c ∨ beginsWith 'n' c)
    constructor
    · rintro ⟨names, h⟩
      obtain ⟨h1, h2, _⟩ := (headerCheck_ok_iff _ names).mp h
      exact ⟨h1, hd.mp h2⟩
    · rintro ⟨h1, h2⟩
      exact ⟨_, (headerCheck_ok_iff _ _).mpr ⟨h1, hd.mpr h2, rfl⟩⟩
  · intro names h
    exact ((headerCheck_ok_iff _ names).mp h).2.2
  · intro hrej
    cases hp : parseBreakOptions e opt_init argc opts with
    | error f => simp [runRefilterBreakpoints, hp, written, rowsRead]
    | ok o =>
      by_cases ha : e.read_access_test [] (withOutputFile o).input_file = true
      · by_cases hb : e.bamOpen (withOutputFile o).bam = true
        · obtain ⟨t, h1, h2, h3⟩ := run_of_parse e argc opts (headerLine :: rows) o hp ha hb
          rw [h3]
          cases hh : headerCheck (e.tokenize_delimited headerLine '\t') with
          | ok names => exact absurd hh (hrej names)
          | error f =>
            simp only [readInput, hh, written_append, rowsRead_append, h1, h2, written,
              rowsRead, List.append_nil, and_self, and_true]
            exact ⟨f, rfl⟩
        · simp [runRefilterBreakpoints, hp, ha, hb, written, rowsRead]
      · simp [runRefilterBreakpoints, hp, ha, written, rowsRead]

/-- C4 (witness).  The header with the sample columns `t1`, `n1` is accepted and declares
`t1`, `n1`; a header of three columns is rejected, and the run on it ends with a failed
assertion before any row is read or written. -/
theorem header_check_accepts_iff_witness :
    headerCheck (exampleEnv.tokenize_delimited exampleHeader '\t') = Except.ok ["t1", "n1"]
    ∧ ["t1", "n1"] = (exampleEnv.tokenize_delimited exampleHeader '\t').drop 38
    ∧ (∀ names, headerCheck (exampleEnv.tokenize_delimited "a\tt1\tn1" '\t')
        ≠ Except.ok names)
    ∧ rowsRead (runRefilterBreakpoints exampleEnv 5 exampleOpts ["a\tt1\tn1", "52"]).trace
        = []
    ∧ written (runRefilterBreakpoints exampleEnv 5 exampleOpts ["a\tt1\tn1", "52"]).trace
        = [] :=
  ⟨by rfl,
    (header_check_accepts_iff exampleEnv 5 exampleOpts exampleHeader []).2.1 _ (by rfl),
    fun names h => Except.noConfusion ((show headerCheck
      (exampleEnv.tokenize_delimited "a\tt1\tn1" '\t') = Except.error Fatal.assertion
      from by rfl).symm.trans h),
    ((header_check_accepts_iff exampleEnv 5 exampleOpts "a\tt1\tn1" ["52"]).2.2
      (fun names h => Except.noConfusion ((show headerCheck
        (exampleEnv.tokenize_delimited "a\tt1\tn1" '\t') = Except.error Fatal.assertion
        from by rfl).symm.trans h))).2.1,
    ((header_check_accepts_iff exampleEnv 5 exampleOpts "a\tt1\tn1" ["52"]).2.2
      (fun names h => Except.noConfusion ((show headerCheck
        (exampleEnv.tokenize_delimited "a\tt1\tn1" '\t') = Except.error Fatal.assertion
        from by rfl).symm.trans h))).2.2⟩

/-- C5.  When the option loop leaves the input path or the path of the BAM file empty,
`parseBreakOptions` ends the process with `exit(1)`, and the run has done nothing to any
file; with more than 2 arguments, no `-h`, and both paths non-empty, `parseBreakOptions`
returns, leaving the variables the option loop set. -/
theorem parse_exits_without_input_or_bam {P R : Type} (e : Env P R) (argc : Int)
    (opts : List (Int × Option String)) :
    (((optionLoop e opts (opt_init, decide (argc ≤ 2))).1.input_file.length = 0
        ∨ (optionLoop e opts (opt_init, decide (argc ≤ 2))).1.bam.length = 0) →
      parseBreakOptions e opt_init argc opts = Except.error (Fatal.exit 1)
      ∧ ∀ input, (runRefilterBreakpoints e argc opts input).result
            = Except.error (Fatal.exit 1)
          ∧ (runRefilterBreakpoints e argc opts input).trace = [])
    ∧ (2 < argc → (∀ p ∈ opts, p.1 ≠ 'h'.toNat) →
        (optionLoop e opts (opt_init, decide (argc ≤ 2))).1.input_file.length ≠ 0 →
        (optionLoop e opts (opt_init, decide (argc ≤ 2))).1.bam.length ≠ 0 →
        parseBreakOptions e opt_init argc opts
          = Except.ok (optionLoop e opts (opt_init, decide (argc ≤ 2))).1) := by
  constructor
  · intro h
    have hp : parseBreakOptions e opt_init argc opts = Except.error (Fatal.exit 1) := by
      unfold parseBreakOptions
      simp only
      rw [if_pos]
      rcases h with h | h
      · simp [h]
      · simp [h]
    refine ⟨hp, ?_⟩
    intro input
    simp only [runRefilterBreakpoints, hp, and_self]
  · intro hargc hh hi hb
    unfold parseBreakOptions
    simp only
    rw [if_neg]
    rw [optionLoop_die]
    have h1 : ¬ argc ≤ 2 := by omega
    have h2 : opts.any (fun p => decide (p.1 = 'h'.toNat)) = false := by
      rw [List.any_eq_false]
      intro p hp
      simpa using hh p hp
    have hd : decide (argc ≤ 2) = false := decide_eq_false h1
    rw [h2]
    rw [hd] at hi hb ⊢
    simp [hi, hb]

/-- C5 (witness).  With `-i in.bps.txt.gz` alone the BAM path stays empty and the process
exits with status 1; with `-i in.bps.txt.gz -b x.bam` the options are parsed. -/
theorem parse_exits_without_input_or_bam_witness :
    ((optionLoop exampleEnv [('i'.toNat, some "in.bps.txt.gz")]
        (opt_init, decide ((3 : Int) ≤ 2))).1.bam.length = 0
      ∧ parseBreakOptions exampleEnv opt_init 3 [('i'.toNat, some "in.bps.txt.gz")]
        = Except.error (Fatal.exit 1))
    ∧ ((2 : Int) < 5 ∧ (∀ p ∈ exampleOpts, p.1 ≠ 'h'.toNat)
      ∧ (optionLoop exampleEnv exampleOpts
          (opt_init, decide ((5 : Int) ≤ 2))).1.input_file.length ≠ 0
      ∧ (optionLoop exampleEnv exampleOpts (opt_init, decide ((5 : Int) ≤ 2))).1.bam.length ≠ 0
      ∧ parseBreakOptions exampleEnv opt_init 5 exampleOpts
        = Except.ok (optionLoop exampleEnv exampleOpts (opt_init, decide ((5 : Int) ≤ 2))).1) :=
  ⟨⟨by decide,
    ((parse_exits_without_input_or_bam exampleEnv 3 [('i'.toNat, some "in.bps.txt.gz")]).1
      (Or.inr (by decide))).1⟩,
    by decide, by decide, by decide, by decide,
    (parse_exits_without_input_or_bam exampleEnv 5 exampleOpts).2 (by decide) (by decide)
      (by decide) (by decide)⟩

theorem queryDBSnp_eq {P R : Type} (e : Env P R) (o : Opt) (bp : BreakPoint P R) :
    queryDBSnp e (withOutputFile o) (dbsnpFilterOf (withOutputFile o)) bp
      = if o.dbsnp.length ≠ 0 then e.queryBreakpoint o.dbsnp o.bam bp else bp := by
  have hd : (withOutputFile o).dbsnp = o.dbsnp := rfl
  have hbam : (withOutputFile o).bam = o.bam := rfl
  unfold dbsnpFilterOf queryDBSnp
  rw [hd, hbam]
  by_cases h : o.dbsnp.length ≠ 0
  · simp only [if_pos h]
  · simp only [if_neg h]

theorem filled_record_spec {P R : Type} (d : SampleInfo P) (headerv names : List String)
    (hacc : headerCheck headerv = Except.ok names) (bp bp1 : BreakPoint P R)
    (hf : fillDiscordant (renameAlleles d names [] bp).2 = Except.ok bp1) :
    bp1.rest = bp.rest
    ∧ (AlleleMap.keys bp1.allele).Pairwise (fun a b => a.data < b.data)
    ∧ (∀ k, k ∈ AlleleMap.keys bp1.allele ↔ k ∈ names)
    ∧ (∀ j (hj : j < names.length),
        (∀ j2 (h2 : j2 < names.length), j < j2 → names[j2] ≠ names[j]) →
        AlleleMap.find bp1.allele names[j]
          = some ((AlleleMap.find bp.allele (posKey (j + 1))).getD d))
    ∧ bp1.dc.tcount = bp.dc.tcount + discSum 't' bp1.allele
    ∧ bp1.dc.ncount = bp.dc.ncount + discSum 'n' bp1.allele := by
  obtain ⟨_, hbeg, hn⟩ := (headerCheck_ok_iff headerv names).mp hacc
  have hmem : ∀ k, k ∈ AlleleMap.keys (renameLoop d names "" [] bp.allele).1 ↔ k ∈ names := by
    intro k
    rw [keys_renameLoop]
    constructor
    · intro h
      rcases h with h | h
      · exact h
      · simp [AlleleMap.keys] at h
    · intro h
      exact Or.inl h
  have hk : ∀ p ∈ (renameLoop d names "" [] bp.allele).1,
      beginsWith 't' p.1 ∨ beginsWith 'n' p.1 := by
    intro p hp
    have h1 : p.1 ∈ names := (hmem p.1).mp (List.mem_map_of_mem Prod.fst hp)
    rw [hn] at h1
    exact hbeg p.1 h1
  have hsum := discLoop_sum (renameLoop d names "" [] bp.allele).1 bp.dc hk
  have hb : bp1 = ⟨(renameLoop d names "" [] bp.allele).1,
      ⟨bp.dc.tcount + discSum 't' (renameLoop d names "" [] bp.allele).1,
        bp.dc.ncount + discSum 'n' (renameLoop d names "" [] bp.allele).1⟩, bp.rest⟩ := by
    have hf2 : fillDiscordant ({ bp with allele := (renameLoop d names "" [] bp.allele).1 } :
        BreakPoint P R) = Except.ok bp1 := hf
    simp only [fillDiscordant, hsum] at hf2
    injection hf2 with hf2
    exact hf2.symm
  subst hb
  refine ⟨rfl, ?_, hmem, ?_, rfl, rfl⟩
  · exact List.pairwise_map.mpr
      (sorted_renameLoop d names "" [] bp.allele List.Pairwise.nil)
  · intro j hj hlast
    show AlleleMap.find (renameLoop d names "" [] bp.allele).1 names[j] = _
    rw [find_renameLoop_last d names "" [] bp.allele j hj hlast]
    rfl

/-- C6.  For an accepted input (the options parse, the input file and the BAM file open,
the header line is accepted, and the constructor returns a record for each of the `n` data
rows) the run ends normally, reads the `n` rows in order and writes exactly `n` lines to
the table.  The `i`-th line is `toFileString(!opt::read_tracking)` of the record `bp1`
made from the `i`-th row after `queryBreakpoint` of the database (when `opt::dbsnp` is
set) and `scoreBreakpoint(opt::lod, opt::lod_db, opt::lod_somatic, opt::lod_somatic_db,
opt::scale_error, 0)`.  The record `bp1` is the parsed record with its allele mapping
renamed (keys ascending, exactly the declared names, each last-declared name with the
evidence of its positional key or a value-initialised `SampleInfo`), with the `disc`
counts of the names beginning with `t` added to `dc.tcount` and of those beginning with
`n` added to `dc.ncount`, and all other members as parsed. -/
theorem table_has_one_line_per_row_in_order {P R : Type} (e : Env P R) (argc : Int)
    (opts : List (Int × Option String)) (o : Opt) (headerLine : String)
    (rows : List String) (names : List String)
    (hp : parseBreakOptions e opt_init argc opts = Except.ok o)
    (ha : e.read_access_test [] (withOutputFile o).input_file = true)
    (hb : e.bamOpen (withOutputFile o).bam = true)
    (hh : headerCheck (e.tokenize_delimited headerLine '\t') = Except.ok names)
    (hrows : ∀ line ∈ rows, ∃ bp, e.newBreakPoint (withOutputFile o).bam line = some bp) :
    (runRefilterBreakpoints e argc opts (headerLine :: rows)).result = Except.ok ()
    ∧ rowsRead (runRefilterBreakpoints e argc opts (headerLine :: rows)).trace = rows
    ∧ (written (runRefilterBreakpoints e argc opts (headerLine :: rows)).trace).length
        = rows.length
    ∧ ∀ i (hi : i < rows.length), ∃ bp bp1,
        e.newBreakPoint o.bam rows[i] = some bp
        ∧ fillDiscordant (renameAlleles e.sampleInfo names [] bp).2 = Except.ok bp1
        ∧ bp1.rest = bp.rest
        ∧ (AlleleMap.keys bp1.allele).Pairwise (fun a b => a.data < b.data)
        ∧ (∀ k, k ∈ AlleleMap.keys bp1.allele
            ↔ k ∈ (e.tokenize_delimited headerLine '\t').drop 38)
        ∧ (∀ j (hj : j < names.length),
            (∀ j2 (h2 : j2 < names.length), j < j2 → names[j2] ≠ names[j]) →
            AlleleMap.find bp1.allele names[j]
              = some ((AlleleMap.find bp.allele (posKey (j + 1))).getD e.sampleInfo))
        ∧ bp1.dc.tcount = bp.dc.tcount + discSum 't' bp1.allele
        ∧ bp1.dc.ncount = bp.dc.ncount + discSum 'n' bp1.allele
        ∧ (written (runRefilterBreakpoints e argc opts (headerLine :: rows)).trace)[i]?
          = some (e.toFileString
              (e.scoreBreakpoint
                (if o.dbsnp.length ≠ 0 then e.queryBreakpoint o.dbsnp o.bam bp1 else bp1)
                o.lod o.lod_db o.lod_somatic o.lod_somatic_db o.scale_error 0)
              (!o.read_tracking)) := by
  obtain ⟨t, h1, h2, h3⟩ := run_of_parse e argc opts (headerLine :: rows) o hp ha hb
  have hn := headerCheck_names_nonempty _ names hh
  have hdrop : names = (e.tokenize_delimited headerLine '\t').drop 38 :=
    ((headerCheck_ok_iff _ names).mp hh).2.2
  have hall : ∀ line ∈ rows, ∃ r, processRow e (withOutputFile o)
      (dbsnpFilterOf (withOutputFile o)) names [] line = Except.ok r := by
    intro line hl
    obtain ⟨bp, hbp⟩ := hrows line hl
    obtain ⟨bp1, _, h5⟩ := processRow_of_parse e (withOutputFile o)
      (dbsnpFilterOf (withOutputFile o)) names line bp hn hbp
    exact ⟨_, h5⟩
  obtain ⟨⟨tmp1, m1⟩, m2, m3⟩ := mainLoop_written e (withOutputFile o)
    (dbsnpFilterOf (withOutputFile o)) names rows [] List.Pairwise.nil
    (by intro k hk; simp [AlleleMap.keys] at hk) hall
  have hv := makeVCFs_spec e (withOutputFile o) names
    (t ++ Event.readHeader headerLine :: (mainLoop e (withOutputFile o)
      (dbsnpFilterOf (withOutputFile o)) names [] rows).2)
  have hrun : runRefilterBreakpoints e argc opts (headerLine :: rows)
      = makeVCFs e (withOutputFile o) names
          (t ++ Event.readHeader headerLine :: (mainLoop e (withOutputFile o)
            (dbsnpFilterOf (withOutputFile o)) names [] rows).2) := by
    rw [h3]
    simp only [readInput, hh, m1]
  have hw : written (runRefilterBreakpoints e argc opts (headerLine :: rows)).trace
      = written (mainLoop e (withOutputFile o) (dbsnpFilterOf (withOutputFile o))
          names [] rows).2 := by
    rw [hrun, hv.2.1, written_append, h1]
    rfl
  have hr : rowsRead (runRefilterBreakpoints e argc opts (headerLine :: rows)).trace
      = rows := by
    rw [hrun, hv.2.2, rowsRead_append, h2]
    exact m3
  obtain ⟨hlen, hget⟩ := List.forall₂_iff_get.mp m2
  refine ⟨by rw [hrun]; exact hv.1, hr, by rw [hw, ← hlen], ?_⟩
  intro i hi
  obtain ⟨bp, hbp⟩ := hrows rows[i] (List.getElem_mem _)
  obtain ⟨bp1, h4, h5⟩ := processRow_of_parse e (withOutputFile o)
    (dbsnpFilterOf (withOutputFile o)) names rows[i] bp hn hbp
  obtain ⟨s1, s2, s3, s4, s5, s6⟩ := filled_record_spec e.sampleInfo
    (e.tokenize_delimited headerLine '\t') names hh bp bp1 h4
  refine ⟨bp, bp1, hbp, h4, s1, s2, ?_, s4, s5, s6, ?_⟩
  · intro k
    rw [← hdrop]
    exact s3 k
  obtain ⟨t2, h6⟩ := hget i hi (by rw [← hlen]; exact hi)
  rw [List.get_eq_getElem] at h6
  rw [h5] at h6
  injection h6 with h6
  have h7 := congrArg Prod.snd h6
  simp only at h7
  rw [hw, List.getElem?_eq_getElem (by rw [← hlen]; exact hi)]
  refine congrArg some (Eq.trans h7.symm ?_)
  rw [queryDBSnp_eq e o bp1]
  rfl

/-- C6 (witness).  With the database `db.vcf` configured, the input with the sample
columns `t1`, `n1` and the rows `52`, `7`, `123` gives the three lines of the three rows,
in order: each is the row, the mark of the database query, the mark of the scoring with
its five cutoffs in the order of the call, and the two discordant totals. -/
theorem table_has_one_line_per_row_in_order_witness :
    (parseBreakOptions markingEnv opt_init 7 exampleOptsDb
        = Except.ok (optionLoop markingEnv exampleOptsDb
            (opt_init, decide ((7 : Int) ≤ 2))).1
      ∧ headerCheck (markingEnv.tokenize_delimited exampleHeader '\t')
        = Except.ok ["t1", "n1"])
    ∧ (runRefilterBreakpoints markingEnv 7 exampleOptsDb
        [exampleHeader, "52", "7", "123"]).result = Except.ok ()
    ∧ rowsRead (runRefilterBreakpoints markingEnv 7
        exampleOptsDb
        [exampleHeader, "52", "7", "123"]).trace = ["52", "7", "123"]
    ∧ written (runRefilterBreakpoints markingEnv 7
        exampleOptsDb
        [exampleHeader, "52", "7", "123"]).trace
      = ["52@db.vcf#8,6,6,10,1;5:2", "7@db.vcf#8,6,6,10,1;7:0", "123@db.vcf#8,6,6,10,1;1:2"] :=
  ⟨⟨by rfl, by rfl⟩,
    (table_has_one_line_per_row_in_order markingEnv 7
      exampleOptsDb _ exampleHeader
      ["52", "7", "123"] ["t1", "n1"] (by rfl) (by rfl) (by rfl) (by rfl)
      (fun line _ => ⟨_, rfl⟩)).1,
    (table_has_one_line_per_row_in_order markingEnv 7
      exampleOptsDb _ exampleHeader
      ["52", "7", "123"] ["t1", "n1"] (by rfl) (by rfl) (by rfl) (by rfl)
      (fun line _ => ⟨_, rfl⟩)).2.1,
    by decide⟩

/-- C7 (the code at the failing input).  The run never writes the header line: the table
has at most one line per data row, it is empty for an input of the header line alone, and
a table written from `n` data rows, given back as input, yields at most `n - 1` data rows.
At the input of the header with the sample columns `t1`, `n1` and the row `52` the run
ends normally and the table is the single line of the record, which the header check
rejects. -/
theorem table_has_no_header_line {P R : Type} (e : Env P R) (argc argc2 : Int)
    (opts opts2 : List (Int × Option String)) (headerLine : String) (rows : List String) :
    (written (runRefilterBreakpoints e argc opts (headerLine :: rows)).trace).length
        ≤ rows.length
    ∧ written (runRefilterBreakpoints e argc opts [headerLine]).trace = []
    ∧ (rowsRead (runRefilterBreakpoints e argc2 opts2
          (written (runRefilterBreakpoints e argc opts (headerLine :: rows)).trace)).trace).length
        ≤ rows.length - 1
    ∧ (runRefilterBreakpoints exampleEnv 5 exampleOpts [exampleHeader, "52"]).result
        = Except.ok ()
    ∧ written (runRefilterBreakpoints exampleEnv 5 exampleOpts [exampleHeader, "52"]).trace
        = ["525:2"]
    ∧ headerCheck (exampleEnv.tokenize_delimited "525:2" '\t')
        = Except.error Fatal.assertion := by
  have h1 := (run_le e argc opts (headerLine :: rows)).1
  have h2 := (run_le e argc opts [headerLine]).1
  have h3 := (run_le e argc2 opts2
    (written (runRefilterBreakpoints e argc opts (headerLine :: rows)).trace)).2
  simp only [List.length_cons, Nat.add_sub_cancel] at h1
  refine ⟨h1, ?_, by omega, by rfl, by decide, by rfl⟩
  exact List.length_eq_zero.mp (Nat.le_zero.mp h2)

/-- C8 (the code at the failing input).  Whatever the command line, the option loop leaves
`opt::read_tracking` false, so every row is serialized by `toFileString(true)`, read
tracking suppressed; in particular the command line
`-i in.bps.txt.gz -b x.bam --read-tracking` is parsed and leaves `opt::read_tracking`
false. -/
theorem read_tracking_is_never_enabled {P R : Type} (e : Env P R) (argc : Int)
    (opts : List (Int × Option String)) (filt : Option String) (names : List String)
    (tmp : AlleleMap P) (line : String) :
    (optionLoop e opts (opt_init, decide (argc ≤ 2))).1.read_tracking = false
    ∧ processRow e (withOutputFile (optionLoop e opts (opt_init, decide (argc ≤ 2))).1)
        filt names tmp line
      = (match processRecord e
            (withOutputFile (optionLoop e opts (opt_init, decide (argc ≤ 2))).1)
            filt names tmp line with
          | Except.error f => Except.error f
          | Except.ok r => Except.ok (r.1, e.toFileString r.2 true))
    ∧ ∃ o, parseBreakOptions e opt_init 6 (exampleOpts ++ [(OPT_READ_TRACK, none)])
          = Except.ok o
        ∧ o.read_tracking = false := by
  have h := optionLoop_read_tracking e opts (opt_init, decide (argc ≤ 2)) rfl
  refine ⟨h, ?_, ?_⟩
  · have h2 : (withOutputFile
        (optionLoop e opts (opt_init, decide (argc ≤ 2))).1).read_tracking = false := h
    unfold processRow
    rw [h2]
    cases processRecord e
        (withOutputFile (optionLoop e opts (opt_init, decide (argc ≤ 2))).1)
        filt names tmp line with
    | error f => rfl
    | ok r => rfl
  · exact ⟨_, rfl, rfl⟩

/-- C10.  Let two runs with the same header, options and database have processed the rows
`pre1` and `pre2`, leaving `tmp_alleles` at `tmp1` and `tmp2`.  For every row `line`
that comes next, the rename step gives the same record and the same `tmp_alleles` in both
runs, the same as from an empty `tmp_alleles`; so do the discordant loop, the scoring and
the serialization; and the line written for that row is the same in both runs, whatever
rows come before and after it. -/
theorem row_output_independent_of_other_rows {P R : Type} (e : Env P R) (o : Opt)
    (filt : Option String) (names : List String) (pre1 pre2 : List String)
    (tmp1 tmp2 : AlleleMap P)
    (h1 : (mainLoop e o filt names [] pre1).1 = Except.ok tmp1)
    (h2 : (mainLoop e o filt names [] pre2).1 = Except.ok tmp2)
    (line : String) (post1 post2 : List String) :
    (∀ bp : BreakPoint P R,
        renameAlleles e.sampleInfo names tmp1 bp = renameAlleles e.sampleInfo names [] bp
        ∧ renameAlleles e.sampleInfo names tmp2 bp = renameAlleles e.sampleInfo names [] bp
        ∧ fillDiscordant (renameAlleles e.sampleInfo names tmp1 bp).2
          = fillDiscordant (renameAlleles e.sampleInfo names tmp2 bp).2)
    ∧ processRecord e o filt names tmp1 line = processRecord e o filt names tmp2 line
    ∧ processRow e o filt names tmp1 line = processRow e o filt names tmp2 line
    ∧ (written (mainLoop e o filt names [] (pre1 ++ line :: post1)).2)[pre1.length]?
      = (written (mainLoop e o filt names [] (pre2 ++ line :: post2)).2)[pre2.length]? := by
  have hnil : ∀ k, k ∈ AlleleMap.keys ([] : AlleleMap P) → k ∈ names := by
    intro k hk
    simp [AlleleMap.keys] at hk
  obtain ⟨s1, k1⟩ := mainLoop_tmp e o filt names pre1 [] tmp1 h1 List.Pairwise.nil hnil
  obtain ⟨s2, k2⟩ := mainLoop_tmp e o filt names pre2 [] tmp2 h2 List.Pairwise.nil hnil
  have r1 := processRow_fresh e o filt names tmp1 line s1 k1
  have r2 := processRow_fresh e o filt names tmp2 line s2 k2
  have hrow : processRow e o filt names tmp1 line = processRow e o filt names tmp2 line := by
    rw [r1, r2]
  have hat : ∀ (pre post : List String) (tmp : AlleleMap P),
      (mainLoop e o filt names [] pre).1 = Except.ok tmp →
      (written (mainLoop e o filt names [] (pre ++ line :: post)).2)[pre.length]?
        = (match processRow e o filt names tmp line with
            | Except.error _ => none
            | Except.ok r => some r.2) := by
    intro pre post tmp h
    obtain ⟨hl, ha⟩ := mainLoop_append e o filt names pre [] tmp (line :: post) h
    rw [ha]
    simp only [written_append]
    rw [List.getElem?_append_right (by rw [hl]), hl, Nat.sub_self]
    simp only [mainLoop]
    cases processRow e o filt names tmp line with
    | error f => simp [written]
    | ok r => simp [written]
  refine ⟨?_, ?_, hrow, ?_⟩
  · intro bp
    have e1 := renameAlleles_fresh e.sampleInfo names tmp1 bp s1 k1
    have e2 := renameAlleles_fresh e.sampleInfo names tmp2 bp s2 k2
    exact ⟨e1, e2, by rw [e1, e2]⟩
  · rw [processRecord_fresh e o filt names tmp1 line s1 k1,
      processRecord_fresh e o filt names tmp2 line s2 k2]
  · rw [hat pre1 post1 tmp1 h1, hat pre2 post2 tmp2 h2, hrow]

/-- C10 (witness).  The row `52` after the row `7`, and after the rows `123` and `9`:
the same line `525:2` is written for it. -/
theorem row_output_independent_of_other_rows_witness :
    ((mainLoop exampleEnv opt_init none ["t1", "n1"] [] ["7"]).1
        = Except.ok [("n1", ⟨0, ()⟩), ("t1", ⟨7, ()⟩)]
      ∧ (mainLoop exampleEnv opt_init none ["t1", "n1"] [] ["123", "9"]).1
        = Except.ok [("n1", ⟨0, ()⟩), ("t1", ⟨9, ()⟩)])
    ∧ (written (mainLoop exampleEnv opt_init none ["t1", "n1"] []
          (["7"] ++ "52" :: ["4"])).2)[1]?
      = (written (mainLoop exampleEnv opt_init none ["t1", "n1"] []
          (["123", "9"] ++ "52" :: [])).2)[2]?
    ∧ (written (mainLoop exampleEnv opt_init none ["t1", "n1"] []
          (["7"] ++ "52" :: ["4"])).2)[1]? = some "525:2" :=
  ⟨⟨by rfl, by rfl⟩,
    (row_output_independent_of_other_rows exampleEnv opt_init none ["t1", "n1"] ["7"]
      ["123", "9"] [("n1", ⟨0, ()⟩), ("t1", ⟨7, ()⟩)] [("n1", ⟨0, ()⟩), ("t1", ⟨9, ()⟩)]
      (by rfl) (by rfl) "52" ["4"] []).2.2.2,
    by decide⟩

end Refilter
